import Mathlib

set_option maxRecDepth 100000

/-!
Shallow embedding of the AgriChain server's data-integrity pipeline:
the SHA-256 hash engine (hash.service.js / file.service.js), the ledger
anchor (blockchain.service.js), the relational store
(database.service.js) and the coordinator (agrichain.service.js).
Machine integers are modelled as Nat reduced mod 2^32 where the source
uses 32-bit words; byte strings are lists of Nat below 256; effectful
JavaScript functions become pure functions over explicit state, with
the current wall-clock time passed as an explicit argument wherever the
source calls new Date, and with fallible infrastructure writes guarded
by explicit success oracles.
-/

namespace AgriChain

/-! ## Bytes, hex, UTF-8 -/

def M32 : Nat := 4294967296

def mask32 : Nat := M32 - 1

/-- Hex digit character for a value below 16 (lowercase, as produced by
Node's Buffer/digest("hex") and ethers.hexlify). -/
def hexDigit (n : Nat) : Char :=
  if n < 10 then Char.ofNat (48 + n) else Char.ofNat (87 + n)

/-- Two lowercase hex characters for one byte. -/
def hexByte (b : Nat) : String :=
  String.mk [hexDigit (b / 16 % 16), hexDigit (b % 16)]

/-- Lowercase hex encoding of a byte list. -/
def hexOfBytes (bs : List Nat) : String :=
  String.mk (bs.foldr
    (fun b acc => hexDigit (b / 16 % 16) :: hexDigit (b % 16) :: acc) [])

/-- Numeric value of a hex digit character, if it is one. -/
def hexDigitVal (c : Char) : Option Nat :=
  if 48 ≤ c.toNat ∧ c.toNat ≤ 57 then some (c.toNat - 48)
  else if 97 ≤ c.toNat ∧ c.toNat ≤ 102 then some (c.toNat - 87)
  else if 65 ≤ c.toNat ∧ c.toNat ≤ 70 then some (c.toNat - 55)
  else none

/-- Is the character a hex digit? -/
def isHexDigit (c : Char) : Bool := (hexDigitVal c).isSome

/-- UTF-8 encoding of one character (all four ranges). -/
def utf8Char (c : Char) : List Nat :=
  let n := c.toNat
  if n < 128 then [n]
  else if n < 2048 then [192 + n / 64, 128 + n % 64]
  else if n < 65536 then [224 + n / 4096, 128 + n / 64 % 64, 128 + n % 64]
  else [240 + n / 262144, 128 + n / 4096 % 64, 128 + n / 64 % 64, 128 + n % 64]

/-- UTF-8 encoding of a string, as the byte list Node feeds to
crypto.createHash(...).update(s, "utf8"). -/
def utf8Encode (s : String) : List Nat :=
  s.data.foldr (fun c acc => utf8Char c ++ acc) []

/-! ## SHA-256 (crypto.createHash("sha256")) -/

/-- Right rotation of a 32-bit word. -/
def rotr (n x : Nat) : Nat := ((x >>> n) ||| (x <<< (32 - n))) &&& mask32

def ssig0 (x : Nat) : Nat := (rotr 7 x) ^^^ (rotr 18 x) ^^^ (x >>> 3)

def ssig1 (x : Nat) : Nat := (rotr 17 x) ^^^ (rotr 19 x) ^^^ (x >>> 10)

def bsig0 (x : Nat) : Nat := (rotr 2 x) ^^^ (rotr 13 x) ^^^ (rotr 22 x)

def bsig1 (x : Nat) : Nat := (rotr 6 x) ^^^ (rotr 11 x) ^^^ (rotr 25 x)

def chf (x y z : Nat) : Nat := (x &&& y) ^^^ ((x ^^^ mask32) &&& z)

def majf (x y z : Nat) : Nat := (x &&& y) ^^^ (x &&& z) ^^^ (y &&& z)

/-- SHA-256 round constants. -/
def sha256K : List Nat :=
  [1116352408, 1899447441, 3049323471, 3921009573, 961987163,
   1508970993, 2453635748, 2870763221, 3624381080, 310598401,
   607225278, 1426881987, 1925078388, 2162078206, 2614888103,
   3248222580, 3835390401, 4022224774, 264347078, 604807628,
   770255983, 1249150122, 1555081692, 1996064986, 2554220882,
   2821834349, 2952996808, 3210313671, 3336571891, 3584528711,
   113926993, 338241895, 666307205, 773529912, 1294757372,
   1396182291, 1695183700, 1986661051, 2177026350, 2456956037,
   2730485921, 2820302411, 3259730800, 3345764771, 3516065817,
   3600352804, 4094571909, 275423344, 430227734, 506948616,
   659060556, 883997877, 958139571, 1322822218, 1537002063,
   1747873779, 1955562222, 2024104815, 2227730452, 2361852424,
   2428436474, 2756734187, 3204031479, 3329325298]

/-- SHA-256 initial hash value. -/
def sha256H0 : List Nat :=
  [1779033703, 3144134277, 1013904242, 2773480762, 1359893119,
   2600822924, 528734635, 1541459225]

/-- Big-endian byte representation of v on n bytes. -/
def beBytes (n v : Nat) : List Nat :=
  (List.range n).map (fun i => v >>> (8 * (n - 1 - i)) &&& 255)

/-- SHA-256 padding: 0x80, zeros, then the 64-bit big-endian bit length. -/
def sha256Pad (msg : List Nat) : List Nat :=
  let z := (64 - (msg.length + 9) % 64) % 64
  msg ++ [128] ++ List.replicate z 0 ++ beBytes 8 (8 * msg.length)

/-- The 16 initial 32-bit message-schedule words of one 64-byte block. -/
def blockWords (blk : List Nat) : List Nat :=
  (List.range 16).map (fun j =>
    blk.getD (4 * j) 0 <<< 24 ||| blk.getD (4 * j + 1) 0 <<< 16 |||
    blk.getD (4 * j + 2) 0 <<< 8 ||| blk.getD (4 * j + 3) 0)

/-- Extend the 16 words to the full 64-entry schedule. -/
def sha256Schedule (w16 : List Nat) : List Nat :=
  (List.range 48).foldl (fun w i =>
    let t := i + 16
    w ++ [(ssig1 (w.getD (t - 2) 0) + w.getD (t - 7) 0 +
           ssig0 (w.getD (t - 15) 0) + w.getD (t - 16) 0) % M32]) w16

/-- One compression round. -/
def sha256Round (k wt : Nat) (st : List Nat) : List Nat :=
  match st with
  | [a, b, c, d, e, f, g, h] =>
      let t1 := (h + bsig1 e + chf e f g + k + wt) % M32
      let t2 := (bsig0 a + majf a b c) % M32
      [(t1 + t2) % M32, a, b, c, (d + t1) % M32, e, f, g]
  | st => st

/-- Compress one 64-byte block into the running hash state. -/
def sha256Block (st : List Nat) (blk : List Nat) : List Nat :=
  let w := sha256Schedule (blockWords blk)
  let fin := (List.range 64).foldl
    (fun s t => sha256Round (sha256K.getD t 0) (w.getD t 0) s) st
  List.zipWith (fun a b => (a + b) % M32) st fin

/-- SHA-256 of a byte list, as 32 output bytes. -/
def sha256 (msg : List Nat) : List Nat :=
  let padded := sha256Pad msg
  let n := padded.length / 64
  let fin := (List.range n).foldl
    (fun st i => sha256Block st ((padded.drop (64 * i)).take 64)) sha256H0
  fin.foldr (fun w acc => beBytes 4 w ++ acc) []

/-- SHA-256 of a byte list as a lowercase hex string
(digest("hex") in Node). -/
def sha256Hex (msg : List Nat) : String := hexOfBytes (sha256 msg)

/-! ## JavaScript values and JSON.stringify

The data flowing through the hash pipeline consists of JS objects whose
values are scalars (strings, numbers, booleans, null, undefined); the
embedding fixes that domain.  An object is an insertion-ordered
association list, as JS object literals and spreads are. -/

inductive Scalar where
  | sStr (s : String)
  | sNum (n : Int)
  | sBool (b : Bool)
  | sNull
  | sUndef
deriving DecidableEq, Repr

/-- JS object with scalar values, in insertion order. -/
abbrev JsObj := List (String × Scalar)

/-- Property read o[k]: first binding, undefined when absent. -/
def objGet (o : JsObj) (k : String) : Scalar :=
  match o.find? (fun p => p.1 = k) with
  | some p => p.2
  | none => Scalar.sUndef

/-- Property write: override in place when the key exists (JS keeps the
first-occurrence position), append otherwise.  This is the semantics of
both spread merging and literal-field addition. -/
def objSet (o : JsObj) (k : String) (v : Scalar) : JsObj :=
  if o.any (fun p => p.1 = k) then
    o.map (fun p => if p.1 = k then (k, v) else p)
  else o ++ [(k, v)]

/-- JS truthiness test on a scalar. -/
def truthy : Scalar → Bool
  | Scalar.sStr s => s ≠ ""
  | Scalar.sNum n => n ≠ 0
  | Scalar.sBool b => b
  | Scalar.sNull => false
  | Scalar.sUndef => false

/-- JS s.startsWith(p), via character-list comparison. -/
def jsStartsWith (s p : String) : Bool := p.data.isPrefixOf s.data

/-- JS s.slice(n) for a nonnegative n: drop the first n characters. -/
def strDrop (s : String) (n : Nat) : String := String.mk (s.data.drop n)

/-- Comma-joined concatenation (Array.prototype.join with ","). -/
def joinComma : List String → String
  | [] => ""
  | [x] => x
  | x :: xs => x ++ "," ++ joinComma xs

def lbrace : Char := Char.ofNat 123

def rbrace : Char := Char.ofNat 125

/-- JSON.stringify escaping of one string character. -/
def jsonEscChar (c : Char) : List Char :=
  if c = '"' then ['\\', '"']
  else if c = '\\' then ['\\', '\\']
  else if c = Char.ofNat 8 then ['\\', 'b']
  else if c = Char.ofNat 9 then ['\\', 't']
  else if c = Char.ofNat 10 then ['\\', 'n']
  else if c = Char.ofNat 12 then ['\\', 'f']
  else if c = Char.ofNat 13 then ['\\', 'r']
  else if c.toNat < 32 then
    ['\\', 'u', '0', '0', hexDigit (c.toNat / 16), hexDigit (c.toNat % 16)]
  else [c]

/-- JSON string literal for s, quotes included. -/
def jsonQuote (s : String) : String :=
  String.mk ('"' :: s.data.foldr (fun c acc => jsonEscChar c ++ acc) ['"'])

/-- JSON.stringify of a scalar value in value position. -/
def jsonScalar : Scalar → String
  | Scalar.sStr s => jsonQuote s
  | Scalar.sNum n => toString n
  | Scalar.sBool true => "true"
  | Scalar.sBool false => "false"
  | Scalar.sNull => "null"
  | Scalar.sUndef => "undefined"

/-- JSON.stringify of an object: undefined-valued properties are
dropped, the rest appear in insertion order with no whitespace. -/
def stringifyObj (o : JsObj) : String :=
  String.mk [lbrace] ++
    joinComma
      ((o.filter (fun p => p.2 ≠ Scalar.sUndef)).map
        (fun p => jsonQuote p.1 ++ ":" ++ jsonScalar p.2)) ++
    String.mk [rbrace]

/-- Argument domain of generateHash: a JS object or a scalar. -/
inductive JsIn where
  | inObj (o : JsObj)
  | inScalar (s : Scalar)
deriving DecidableEq, Repr

/-! ## hash.service.js -/

/-- JS string conversion String(x) for scalars. -/
def jsString : Scalar → String
  | Scalar.sStr s => s
  | Scalar.sNum n => toString n
  | Scalar.sBool true => "true"
  | Scalar.sBool false => "false"
  | Scalar.sNull => "null"
  | Scalar.sUndef => "undefined"

/-- Serialization step of generateHash: typeof data is "object" for
objects and null (JSON.stringify there), String(data) otherwise. -/
def generateHashInput : JsIn → String
  | JsIn.inObj o => stringifyObj o
  | JsIn.inScalar Scalar.sNull => "null"
  | JsIn.inScalar s => jsString s

/-- generateHash: SHA-256 over the UTF-8 serialized data, returned as
0x-prefixed lowercase hex. -/
def generateHash (data : JsIn) : String :=
  "0x" ++ sha256Hex (utf8Encode (generateHashInput data))

/-- verifyHash: recompute the hash of data and compare with the
expected hash after normalizing it to carry the 0x prefix.  A
non-string expected hash makes hash.startsWith throw inside the try
block, which the catch turns into false. -/
def verifyHash (data : JsIn) (hash : Scalar) : Bool :=
  match hash with
  | Scalar.sStr h =>
      let cleanHash := if jsStartsWith h "0x" then h else "0x" ++ h
      generateHash data = cleanHash
  | _ => false

/-- Result object of createAgriDataHash. -/
structure HashResult where
  hash : String
  data : JsObj
  fields : List String
  size : Nat
deriving DecidableEq, Repr

/-- Required record fields checked by createAgriDataHash. -/
def requiredFields : List String :=
  ["farmerId", "productType", "harvestDate", "location"]

/-- createAgriDataHash: reject when any required field is falsy
(!agriData[field]), then hash the record extended with the current
time (new Date().toISOString(), the explicit now argument), a version
and a system tag. -/
def createAgriDataHash (agriData : JsObj) (now : String) :
    Except String HashResult :=
  let missingFields := requiredFields.filter
    (fun f => !truthy (objGet agriData f))
  if missingFields ≠ [] then
    Except.error ("Missing required fields: " ++
      String.intercalate ", " missingFields)
  else
    let dataWithMetadata :=
      objSet (objSet (objSet agriData "timestamp" (Scalar.sStr now))
        "version" (Scalar.sStr "1.0")) "system" (Scalar.sStr "AgriChain")
    let hash := generateHash (JsIn.inObj dataWithMetadata)
    Except.ok
      { hash := hash
        data := dataWithMetadata
        fields := dataWithMetadata.map (fun p => p.1)
        size := (stringifyObj dataWithMetadata).length }

/-! ## file.service.js: generateCombinedHash -/

/-- Uploaded file as multer presents it, with the byte content that
fs.readFileSync(file.path) returns; hash is the optional per-file
digest some routes attach before persistence. -/
structure JsFile where
  originalname : String
  filename : String
  path : String
  mimetype : String
  size : Nat
  content : List Nat
  hash : Scalar
deriving DecidableEq, Repr

/-- Per-file entry of the fileInfo array. -/
structure FileInfo where
  originalName : String
  filename : String
  size : Nat
  mimetype : String
  hash : String
  path : String
deriving DecidableEq, Repr

/-- Result of generateCombinedHash. -/
structure CombinedResult where
  combinedHash : String
  dataHash : String
  files : List FileInfo
  hasFiles : Bool
  fileCount : Nat
  totalSize : Nat
  dataSize : Nat
  combinedSize : Nat
  timestamp : String
deriving DecidableEq, Repr

/-- Hex digest of one file's raw bytes. -/
def fileHashHex (f : JsFile) : String := sha256Hex f.content

/-- generateCombinedHash: the combined content is the record's JSON
serialization followed by each file's hex digest in submission order;
the combined hash is the SHA-256 of that string.  dataHash carries no
0x prefix in the source, while combinedHash and the per-file hashes
do. -/
def generateCombinedHash (data : JsObj) (files : List JsFile)
    (now : String) : CombinedResult :=
  let dataString := stringifyObj data
  let combinedContent :=
    files.foldl (fun acc f => acc ++ fileHashHex f) dataString
  let fileInfo := files.map (fun f =>
    { originalName := f.originalname
      filename := f.filename
      size := f.size
      mimetype := f.mimetype
      hash := "0x" ++ fileHashHex f
      path := f.path : FileInfo })
  { combinedHash := "0x" ++ sha256Hex (utf8Encode combinedContent)
    dataHash := sha256Hex (utf8Encode dataString)
    files := fileInfo
    hasFiles := files.length > 0
    fileCount := files.length
    totalSize := fileInfo.foldl (fun sum f => sum + f.size) 0
    dataSize := dataString.length
    combinedSize := combinedContent.length
    timestamp := now }

/-! ## Hex and UTF-8 decoding (ethers.hexlify / toUtf8Bytes /
toUtf8String) -/

/-- ethers.hexlify of a byte array: 0x-prefixed lowercase hex. -/
def hexlify (bs : List Nat) : String := "0x" ++ hexOfBytes bs

/-- Byte list of an even-length hex digit string. -/
def bytesOfHex : List Char → Option (List Nat)
  | [] => some []
  | c1 :: c2 :: r =>
      match hexDigitVal c1, hexDigitVal c2 with
      | some a, some b => (bytesOfHex r).map (fun bs => (16 * a + b) :: bs)
      | _, _ => none
  | [_] => none

/-- Decode a 0x-prefixed hex data string into bytes. -/
def hexToBytes (s : String) : Option (List Nat) :=
  if jsStartsWith s "0x" then bytesOfHex (s.data.drop 2) else none

/-- Is the byte a UTF-8 continuation byte? -/
def isCont (b : Nat) : Bool := 128 ≤ b ∧ b < 192

/-- UTF-8 decoding with fuel; rejects malformed sequences the way
ethers.toUtf8String throws on them. -/
def utf8DecL : Nat → List Nat → Option (List Char)
  | _, [] => some []
  | 0, _ => none
  | fuel + 1, b :: r =>
    if b < 128 then (utf8DecL fuel r).map (fun cs => Char.ofNat b :: cs)
    else if b < 192 then none
    else if b < 224 then
      match r with
      | b2 :: r2 =>
          if isCont b2 then
            let n := (b - 192) * 64 + (b2 - 128)
            if 128 ≤ n then
              (utf8DecL fuel r2).map (fun cs => Char.ofNat n :: cs)
            else none
          else none
      | _ => none
    else if b < 240 then
      match r with
      | b2 :: b3 :: r3 =>
          if isCont b2 ∧ isCont b3 then
            let n := (b - 224) * 4096 + (b2 - 128) * 64 + (b3 - 128)
            if 2048 ≤ n ∧ ¬ (55296 ≤ n ∧ n < 57344) then
              (utf8DecL fuel r3).map (fun cs => Char.ofNat n :: cs)
            else none
          else none
      | _ => none
    else if b < 248 then
      match r with
      | b2 :: b3 :: b4 :: r4 =>
          if isCont b2 ∧ isCont b3 ∧ isCont b4 then
            let n := (b - 240) * 262144 + (b2 - 128) * 4096 +
              (b3 - 128) * 64 + (b4 - 128)
            if 65536 ≤ n ∧ n < 1114112 then
              (utf8DecL fuel r4).map (fun cs => Char.ofNat n :: cs)
            else none
          else none
      | _ => none
    else none

/-- ethers.toUtf8String over a 0x-prefixed hex data string. -/
def toUtf8String (dataHex : String) : Option String :=
  (hexToBytes dataHex).bind
    (fun bs => (utf8DecL bs.length bs).map String.mk)

/-! ## JSON.parse restricted to the payload domain

The ledger payload is a flat JSON object with scalar values; the
decoder below is JSON.parse on exactly the output domain of
stringifyObj (no whitespace, integer numbers). -/

/-- Decode one JSON string escape after the backslash. -/
def parseEsc : List Char → Option (Char × List Char)
  | '"' :: r => some ('"', r)
  | '\\' :: r => some ('\\', r)
  | '/' :: r => some ('/', r)
  | 'b' :: r => some (Char.ofNat 8, r)
  | 'f' :: r => some (Char.ofNat 12, r)
  | 'n' :: r => some (Char.ofNat 10, r)
  | 'r' :: r => some (Char.ofNat 13, r)
  | 't' :: r => some (Char.ofNat 9, r)
  | 'u' :: h1 :: h2 :: h3 :: h4 :: r =>
      match hexDigitVal h1, hexDigitVal h2, hexDigitVal h3, hexDigitVal h4 with
      | some a, some b, some c, some d =>
          some (Char.ofNat (4096 * a + 256 * b + 16 * c + d), r)
      | _, _, _, _ => none
  | _ => none

/-- Read JSON string characters up to the closing quote. -/
def parseStrChars : Nat → List Char → Option (List Char × List Char)
  | _, [] => none
  | 0, _ => none
  | fuel + 1, c :: r =>
      if c = '"' then some ([], r)
      else if c = '\\' then
        match parseEsc r with
        | some (c2, r2) =>
            (parseStrChars fuel r2).map (fun p => (c2 :: p.1, p.2))
        | none => none
      else if c.toNat < 32 then none
      else (parseStrChars fuel r).map (fun p => (c :: p.1, p.2))

/-- Read a nonempty run of decimal digits. -/
def parseNatTok (cs : List Char) : Option (Nat × List Char) :=
  let ds := cs.takeWhile (fun c => 48 ≤ c.toNat ∧ c.toNat ≤ 57)
  if ds = [] then none
  else some (ds.foldl (fun acc c => 10 * acc + (c.toNat - 48)) 0,
    cs.dropWhile (fun c => 48 ≤ c.toNat ∧ c.toNat ≤ 57))

/-- Parse one scalar JSON value. -/
def parseScalarTok (cs : List Char) : Option (Scalar × List Char) :=
  match cs with
  | [] => none
  | c :: r =>
      if c = '"' then
        (parseStrChars r.length r).map
          (fun p => (Scalar.sStr (String.mk p.1), p.2))
      else if c = '-' then
        (parseNatTok r).map (fun p => (Scalar.sNum (-(p.1 : Int)), p.2))
      else if (c :: r).take 4 = ['t', 'r', 'u', 'e'] then
        some (Scalar.sBool true, (c :: r).drop 4)
      else if (c :: r).take 5 = ['f', 'a', 'l', 's', 'e'] then
        some (Scalar.sBool false, (c :: r).drop 5)
      else if (c :: r).take 4 = ['n', 'u', 'l', 'l'] then
        some (Scalar.sNull, (c :: r).drop 4)
      else (parseNatTok (c :: r)).map
        (fun p => (Scalar.sNum (p.1 : Int), p.2))

/-- Parse a comma-separated nonempty field sequence. -/
def parseFieldSeq : Nat → List Char → Option (JsObj × List Char)
  | 0, _ => none
  | fuel + 1, cs =>
    match cs with
    | '"' :: r =>
        (parseStrChars r.length r).bind (fun kp =>
          if kp.2.head? = some ':' then
            (parseScalarTok (kp.2.drop 1)).bind (fun vp =>
              if vp.2.head? = some ',' then
                (parseFieldSeq fuel (vp.2.drop 1)).map
                  (fun p => ((String.mk kp.1, vp.1) :: p.1, p.2))
              else some ([(String.mk kp.1, vp.1)], vp.2))
          else none)
    | _ => none

/-- JSON.parse restricted to flat objects with scalar values, exactly
inverting stringifyObj on its escape-free output. -/
def parseJsonFlat (s : String) : Option JsObj :=
  match s.data with
  | [] => none
  | c0 :: rest =>
    if c0 = lbrace then
      if rest = [rbrace] then some []
      else
        (parseFieldSeq rest.length rest).bind
          (fun p => if p.2 = [rbrace] then some p.1 else none)
    else none

/-! ## blockchain.service.js

The ledger is modelled as the map from transaction hash to submitted
transaction and to receipt that the JSON-RPC provider exposes; the
wall-clock time and the hash/block/gas values the network assigns are
explicit LedgerEnv inputs. -/

/-- BlockchainError: message, machine code, HTTP status. -/
structure BcError where
  message : String
  code : String
  httpStatus : Nat
deriving DecidableEq, Repr

/-- Build a BlockchainError value. -/
def bcError (message code : String) (httpStatus : Nat) : BcError :=
  { message := message, code := code, httpStatus := httpStatus }

/-- One submitted transaction as the provider returns it. -/
structure ChainTx where
  fromAddr : String
  toAddr : String
  value : Nat
  dataField : String
deriving DecidableEq, Repr

/-- One transaction receipt. -/
structure ChainReceipt where
  blockNumber : Nat
  blockHash : String
  gasUsed : Nat
  gasPrice : Nat
  status : Nat
  fromAddr : String
  toAddr : String
deriving DecidableEq, Repr

/-- Ledger state: transactions and receipts keyed by transaction
hash. -/
structure Chain where
  txs : List (String × ChainTx)
  receipts : List (String × ChainReceipt)
deriving DecidableEq, Repr

/-- Environment of one anchoring call: the current time and the values
the network assigns to the submitted transaction. -/
structure LedgerEnv where
  now : String
  newTxHash : String
  blockNumber : Nat
  blockHash : String
  gasUsed : Nat
  gasPrice : Nat
  walletAddr : String
  network : String
  chainId : Nat
deriving DecidableEq, Repr

/-- Result of storeHashOnBlockchain. -/
structure StoreBcResult where
  transactionHash : String
  blockNumber : Nat
  gasUsed : Nat
  storedHash : String
  txData : JsObj
  network : String
  chainId : Nat
  timestamp : String
  fromAddr : String
  toAddr : String
  gasPrice : Nat
deriving DecidableEq, Repr

/-- ethers.isHexString(value, length): 0x prefix, hex digits only,
exact byte length. -/
def isHexStringN (s : String) (n : Nat) : Bool :=
  jsStartsWith s "0x" ∧ s.data.length = 2 * n + 2 ∧
    (s.data.drop 2).all isHexDigit

/-- storeHashOnBlockchain: validate the digest (string, 64 hex digits
after an optional 0x prefix), build the JSON envelope
timestamp/hash/metadata in that spread order, hex-encode its UTF-8
bytes as the data field of a zero-value self-transaction, and record
transaction and confirmed receipt on the chain. -/
def storeHashOnBlockchain (hash : Scalar) (metadata : JsObj)
    (env : LedgerEnv) (chain : Chain) :
    Except BcError (Chain × StoreBcResult) :=
  match hash with
  | Scalar.sStr h =>
    if h = "" then
      Except.error (bcError "Invalid hash format" "INVALID_HASH" 400)
    else
      let cleanHash := if jsStartsWith h "0x" then strDrop h 2 else h
      if ¬ (cleanHash.length = 64 ∧ cleanHash.data.all isHexDigit) then
        Except.error
          (bcError "Hash must be 64 hex characters" "INVALID_HASH_LENGTH" 400)
      else
        let txData := metadata.foldl (fun o p => objSet o p.1 p.2)
          [("timestamp", Scalar.sStr env.now),
           ("hash", Scalar.sStr ("0x" ++ cleanHash))]
        let dataString := stringifyObj txData
        let hexData := hexlify (utf8Encode dataString)
        let tx : ChainTx :=
          { fromAddr := env.walletAddr,
            toAddr := env.walletAddr, value := 0, dataField := hexData }
        let rc : ChainReceipt :=
          { blockNumber := env.blockNumber,
            blockHash := env.blockHash, gasUsed := env.gasUsed,
            gasPrice := env.gasPrice, status := 1,
            fromAddr := env.walletAddr, toAddr := env.walletAddr }
        Except.ok
          ({ txs := (env.newTxHash, tx) :: chain.txs,
             receipts := (env.newTxHash, rc) :: chain.receipts },
           { transactionHash := env.newTxHash,
             blockNumber := env.blockNumber,
             gasUsed := env.gasUsed,
             storedHash := h,
             txData := txData,
             network := env.network,
             chainId := env.chainId,
             timestamp := env.now,
             fromAddr := env.walletAddr,
             toAddr := env.walletAddr,
             gasPrice := env.gasPrice })
  | _ =>
      Except.error (bcError "Invalid hash format" "INVALID_HASH" 400)

/-- Result of retrieveHashFromBlockchain.  storedHash and the decoded
envelope stay null when the payload is absent or fails to decode. -/
structure RetrieveBcResult where
  transactionHash : String
  blockNumber : Nat
  blockHash : String
  gasUsed : Nat
  status : String
  fromAddr : String
  toAddr : String
  timestamp : Option Scalar
  storedHash : Option Scalar
  envelope : Option JsObj
  confirmed : Bool
deriving DecidableEq, Repr

/-- retrieveHashFromBlockchain: reject a malformed transaction hash,
fail TX_NOT_FOUND when the transaction is absent and TX_NOT_CONFIRMED
when the receipt is absent; decode the data payload as UTF-8 JSON,
and on any decode failure return the receipt data with null
storedHash/envelope instead of failing. -/
def retrieveHashFromBlockchain (chain : Chain)
    (transactionHash : String) : Except BcError RetrieveBcResult :=
  if ¬ (transactionHash ≠ "" ∧ isHexStringN transactionHash 32) then
    Except.error
      (bcError "Invalid transaction hash format" "INVALID_TX_HASH" 400)
  else
    match chain.txs.find? (fun p => p.1 = transactionHash) with
    | none =>
        Except.error (bcError "Transaction not found" "TX_NOT_FOUND" 404)
    | some (_, tx) =>
      match chain.receipts.find? (fun p => p.1 = transactionHash) with
      | none =>
          Except.error
            (bcError "Transaction not confirmed" "TX_NOT_CONFIRMED" 404)
      | some (_, rc) =>
        let decodedData : Option JsObj :=
          if tx.dataField ≠ "" ∧ tx.dataField ≠ "0x" then
            (toUtf8String tx.dataField).bind parseJsonFlat
          else none
        Except.ok
          { transactionHash := transactionHash,
            blockNumber := rc.blockNumber,
            blockHash := rc.blockHash,
            gasUsed := rc.gasUsed,
            status := if rc.status = 1 then "success" else "failed",
            fromAddr := tx.fromAddr,
            toAddr := tx.toAddr,
            timestamp := decodedData.bind (fun o =>
              if truthy (objGet o "timestamp") then
                some (objGet o "timestamp")
              else none),
            storedHash := decodedData.map (fun o => objGet o "hash"),
            envelope := decodedData,
            confirmed := rc.status = 1 }

/-! ## database.service.js

The relational store is modelled as lists of rows with identity
counters.  Nullable columns hold Scalar with sNull for SQL NULL;
bound parameters keep the JS value they were given.  Infrastructure
failures of individual inserts, where a claim depends on them, are
modelled by explicit success oracles; the duplicate-key conflict on
blockchain_transactions.transaction_hash (UNIQUE in the schema) is
derived from the state itself. -/

/-- JS x || y on scalars. -/
def scalarOr (v d : Scalar) : Scalar := if truthy v then v else d

/-- 0x-prefixed all-zero 256-bit hash used as default in
verification-log parameters. -/
def zeroHash64 : String :=
  "0x0000000000000000000000000000000000000000000000000000000000000000"

/-- farmers row. -/
structure FarmerRow where
  farmer_id : Scalar
  full_name : Scalar
  email : Scalar
  phone : Scalar
  address : Scalar
  province : Scalar
  district : Scalar
  ward : Scalar
  certification_level : Scalar
  wallet_address : Scalar
deriving DecidableEq, Repr

/-- agricultural_data row. -/
structure AgriRow where
  data_id : Nat
  farmer_id : Scalar
  product_type : Scalar
  location : Scalar
  harvest_date : Scalar
  quantity : Scalar
  quality : Scalar
  notes : Scalar
  data_hash : Scalar
  transaction_hash : Scalar
  block_number : Scalar
  has_files : Bool
  file_count : Nat
deriving DecidableEq, Repr

/-- blockchain_transactions row. -/
structure BcTxRow where
  transaction_hash : Scalar
  block_number : Scalar
  block_hash : Scalar
  from_address : Scalar
  to_address : Scalar
  gas_used : Scalar
  gas_price : Scalar
  transaction_fee : Scalar
  network_name : Scalar
  network_id : Scalar
  status : Scalar
  transaction_date : Scalar
deriving DecidableEq, Repr

/-- uploaded_files row (is_active defaults to true in the schema). -/
structure FileRow where
  file_id : Nat
  data_id : Nat
  original_name : Scalar
  stored_filename : Scalar
  file_path : Scalar
  file_size : Scalar
  mime_type : Scalar
  file_hash : Scalar
  upload_date : Scalar
  is_active : Bool
deriving DecidableEq, Repr

/-- verification_logs row. -/
structure VerifRow where
  log_id : Nat
  data_id : Nat
  transaction_hash : Scalar
  verification_date : Scalar
  verification_method : Scalar
  is_valid : Bool
  stored_hash : Scalar
  current_hash : Scalar
  client_ip : Scalar
  user_agent : Scalar
deriving DecidableEq, Repr

/-- system_logs row. -/
structure SysLogRow where
  log_level : String
  log_category : String
  message : String
  details : String
  timestamp : String
deriving DecidableEq, Repr

/-- Relational store state. -/
structure Db where
  farmers : List FarmerRow
  agri : List AgriRow
  bctx : List BcTxRow
  ufiles : List FileRow
  vlogs : List VerifRow
  syslogs : List SysLogRow
  nextDataId : Nat
  nextFileId : Nat
  nextLogId : Nat
deriving DecidableEq, Repr

/-- farmerInfo argument of ensureFarmerExists (absent properties are
undefined). -/
structure FarmerInfo where
  fullName : Scalar
  email : Scalar
  phone : Scalar
  address : Scalar
  province : Scalar
  district : Scalar
  ward : Scalar
  certificationLevel : Scalar
  walletAddress : Scalar
deriving DecidableEq, Repr

/-- The empty farmerInfo object. -/
def emptyFarmerInfo : FarmerInfo :=
  { fullName := Scalar.sUndef, email := Scalar.sUndef,
    phone := Scalar.sUndef, address := Scalar.sUndef,
    province := Scalar.sUndef, district := Scalar.sUndef,
    ward := Scalar.sUndef, certificationLevel := Scalar.sUndef,
    walletAddress := Scalar.sUndef }

namespace DatabaseService

/-- ensureFarmerExists: SELECT by farmer_id; when no row exists,
INSERT one with best-effort defaults; when one exists, do nothing. -/
def ensureFarmerExists (db : Db) (farmerId : Scalar)
    (farmerInfo : FarmerInfo) : Db :=
  if db.farmers.any (fun r => r.farmer_id = farmerId) then db
  else
    { db with farmers := db.farmers ++
        [{ farmer_id := farmerId,
           full_name := scalarOr farmerInfo.fullName
             (Scalar.sStr ("Farmer " ++ jsString farmerId)),
           email := scalarOr farmerInfo.email Scalar.sNull,
           phone := scalarOr farmerInfo.phone Scalar.sNull,
           address := scalarOr farmerInfo.address Scalar.sNull,
           province := scalarOr farmerInfo.province Scalar.sNull,
           district := scalarOr farmerInfo.district Scalar.sNull,
           ward := scalarOr farmerInfo.ward Scalar.sNull,
           certification_level := scalarOr farmerInfo.certificationLevel
             (Scalar.sStr "Standard"),
           wallet_address := scalarOr farmerInfo.walletAddress
             Scalar.sNull }] }

/-- sp_StoreAgriData: transactional insert of the agricultural_data
row alone (the stored procedure commits before control returns), with
the identity id returned. -/
def spStoreAgriData (db : Db) (agriData : JsObj) (blockchainData : JsObj)
    (files : List JsFile) : Db × AgriRow :=
  let row : AgriRow :=
    { data_id := db.nextDataId,
      farmer_id := objGet agriData "farmerId",
      product_type := objGet agriData "productType",
      location := objGet agriData "location",
      harvest_date := objGet agriData "harvestDate",
      quantity := scalarOr (objGet agriData "quantity") Scalar.sNull,
      quality := scalarOr (objGet agriData "quality")
        (Scalar.sStr "Standard"),
      notes := scalarOr (objGet agriData "notes") Scalar.sNull,
      data_hash := objGet agriData "hash",
      transaction_hash := objGet blockchainData "transactionHash",
      block_number := scalarOr (objGet blockchainData "blockNumber")
        Scalar.sNull,
      has_files := files.length > 0,
      file_count := files.length }
  ({ db with agri := db.agri ++ [row], nextDataId := db.nextDataId + 1 },
   row)

/-- storeBlockchainTransaction: INSERT into blockchain_transactions;
a duplicate-key violation of the UNIQUE transaction_hash constraint is
caught and ignored, leaving the table unchanged. -/
def storeBlockchainTransaction (db : Db) (blockchainData : JsObj)
    (now : String) : Db :=
  let txh := objGet blockchainData "transactionHash"
  if db.bctx.any (fun r => r.transaction_hash = txh) then db
  else
    { db with bctx := db.bctx ++
        [{ transaction_hash := txh,
           block_number := scalarOr (objGet blockchainData "blockNumber")
             Scalar.sNull,
           block_hash := scalarOr (objGet blockchainData "blockHash")
             Scalar.sNull,
           from_address := scalarOr (objGet blockchainData "from")
             (objGet blockchainData "fromAddress"),
           to_address := scalarOr (objGet blockchainData "to")
             (objGet blockchainData "toAddress"),
           gas_used := scalarOr (objGet blockchainData "gasUsed")
             Scalar.sNull,
           gas_price := scalarOr (objGet blockchainData "gasPrice")
             Scalar.sNull,
           transaction_fee := scalarOr
             (objGet blockchainData "transactionFee") Scalar.sNull,
           network_name := scalarOr (objGet blockchainData "networkName")
             (Scalar.sStr "amoy"),
           network_id := scalarOr (objGet blockchainData "networkId")
             (Scalar.sNum 80002),
           status := scalarOr (objGet blockchainData "status")
             (Scalar.sStr "Confirmed"),
           transaction_date := Scalar.sStr now }] }

/-- storeFileMetadata: one INSERT per file, sequential, no enclosing
transaction; insertOk i tells whether the i-th insert succeeds, and a
failure propagates as the thrown error while keeping the rows already
written. -/
def storeFileMetadata (db : Db) (dataId : Nat) (files : List JsFile)
    (insertOk : Nat → Bool) (now : String) (i : Nat := 0) :
    Db × Except String Unit :=
  match files with
  | [] => (db, Except.ok ())
  | f :: rest =>
    if insertOk i then
      let row : FileRow :=
        { file_id := db.nextFileId,
          data_id := dataId,
          original_name := Scalar.sStr f.originalname,
          stored_filename := Scalar.sStr f.filename,
          file_path := Scalar.sStr f.path,
          file_size := Scalar.sNum f.size,
          mime_type := Scalar.sStr f.mimetype,
          file_hash := scalarOr f.hash (Scalar.sStr ""),
          upload_date := Scalar.sStr now,
          is_active := true }
      storeFileMetadata
        { db with
            ufiles := db.ufiles ++ [row],
            nextFileId := db.nextFileId + 1 }
        dataId rest insertOk now (i + 1)
    else (db, Except.error "File metadata insert failed")

/-- logOperation: append one system_logs row; its own errors are
logged and swallowed, so it is total here. -/
def logOperation (db : Db) (operation : String) (details : JsObj)
    (now : String) : Db :=
  { db with syslogs := db.syslogs ++
      [{ log_level := "INFO", log_category := "API",
         message := operation, details := stringifyObj details,
         timestamp := now }] }

/-- DatabaseService.storeAgriData: ensure the farmer, insert the
record through the stored procedure, insert the anchor row with
duplicate suppression, then the per-file rows, then the system-audit
entry.  No transaction spans these steps: an attachment-insert failure
aborts the call but leaves the record (and anchor) rows in place. -/
def storeAgriData (db : Db) (agriData : JsObj) (farmerInfo : FarmerInfo)
    (blockchainData : JsObj) (files : List JsFile)
    (insertOk : Nat → Bool) (now : String) : Db × Except String Nat :=
  let db1 := ensureFarmerExists db (objGet agriData "farmerId") farmerInfo
  let res := spStoreAgriData db1 agriData blockchainData files
  let db2 := res.1
  let row := res.2
  let db3 := storeBlockchainTransaction db2 blockchainData now
  let next : Db × Except String Unit :=
    if files.length > 0 then
      storeFileMetadata db3 row.data_id files insertOk now
    else (db3, Except.ok ())
  match next.2 with
  | Except.ok _ =>
      let db5 := logOperation next.1 "STORE_DATA"
        [("dataId", Scalar.sNum row.data_id),
         ("farmerId", objGet agriData "farmerId"),
         ("transactionHash", objGet blockchainData "transactionHash"),
         ("fileCount", Scalar.sNum files.length)] now
      (db5, Except.ok row.data_id)
  | Except.error e => (next.1, Except.error e)

/-- Row bundle returned by retrieveAgriData. -/
structure Retrieved where
  row : AgriRow
  full_name : Scalar
  blockchain_status : Scalar
  files : List FileRow
  verificationHistory : List VerifRow
deriving DecidableEq, Repr

/-- retrieveAgriData: select by internal id or by transaction
hash/data hash, left-joining farmer and anchor data, failing when no
row matches; active attachments and the verification history are
attached to the result. -/
def retrieveAgriData (db : Db) (identifier : String) (idType : String) :
    Except String Retrieved :=
  let rows := if idType = "id" then
      db.agri.filter (fun r => toString r.data_id = identifier)
    else
      db.agri.filter (fun r =>
        r.transaction_hash = Scalar.sStr identifier ∨
        r.data_hash = Scalar.sStr identifier)
  match rows with
  | [] => Except.error ("No data found for " ++ idType ++ ": " ++ identifier)
  | row :: _ =>
    Except.ok
      { row := row,
        full_name := match db.farmers.find?
            (fun f => f.farmer_id = row.farmer_id) with
          | some f => f.full_name
          | none => Scalar.sNull,
        blockchain_status := match db.bctx.find?
            (fun b => b.transaction_hash = row.transaction_hash) with
          | some b => b.status
          | none => Scalar.sNull,
        files := if row.has_files then
            db.ufiles.filter (fun f => f.data_id = row.data_id ∧ f.is_active)
          else [],
        verificationHistory :=
          db.vlogs.filter (fun v => v.data_id = row.data_id) }

/-- logVerification: append one verification_logs row with zero-hash
defaults for missing detail fields; any insert error is caught and
swallowed (modelled by insertOk false leaving the state unchanged), so
the function never fails its caller. -/
def logVerification (db : Db) (dataId : Nat) (isValid : Bool)
    (method : String) (details : JsObj) (insertOk : Bool)
    (now : String) : Db :=
  if insertOk then
    { db with
      nextLogId := db.nextLogId + 1,
      vlogs := db.vlogs ++
        [{ log_id := db.nextLogId,
           data_id := dataId,
           transaction_hash := scalarOr (objGet details "transactionHash")
             (Scalar.sStr zeroHash64),
           verification_date := Scalar.sStr now,
           verification_method := Scalar.sStr method,
           is_valid := isValid,
           stored_hash := scalarOr (objGet details "storedHash")
             (Scalar.sStr zeroHash64),
           current_hash := scalarOr (objGet details "currentHash")
             (Scalar.sStr zeroHash64),
           client_ip := scalarOr (objGet details "ip") Scalar.sNull,
           user_agent := scalarOr (objGet details "userAgent")
             Scalar.sNull }] }
  else db

end DatabaseService

/-! ## agrichain.service.js -/

namespace AgriChainService

/-- Result of the coordinator's store flow. -/
structure StoreOutcome where
  dataId : Nat
  dataHash : String
  originalData : JsObj
  transactionHash : String
  blockNumber : Nat
  filesStored : Nat
deriving DecidableEq, Repr

/-- storeAgriData: hash the record (at hashNow), anchor the hash on
the ledger, then persist record, anchor metadata and files; any step's
failure aborts the flow, leaving the earlier steps' effects behind. -/
def storeAgriData (agriData : JsObj) (files : List JsFile)
    (farmerInfo : FarmerInfo) (hashNow : String) (env : LedgerEnv)
    (chain : Chain) (db : Db) (insertOk : Nat → Bool) (dbNow : String) :
    (Chain × Db) × Except String StoreOutcome :=
  match createAgriDataHash agriData hashNow with
  | Except.error e => ((chain, db), Except.error e)
  | Except.ok hashResult =>
    let metadata : JsObj :=
      [("farmerId", objGet agriData "farmerId"),
       ("productType", objGet agriData "productType"),
       ("harvestDate", objGet agriData "harvestDate"),
       ("dataSize", Scalar.sNum hashResult.size),
       ("fieldsCount", Scalar.sNum hashResult.fields.length)]
    match storeHashOnBlockchain (Scalar.sStr hashResult.hash) metadata
        env chain with
    | Except.error e => ((chain, db), Except.error e.message)
    | Except.ok (chain2, bc) =>
      let blockchainData : JsObj :=
        [("transactionHash", Scalar.sStr bc.transactionHash),
         ("blockNumber", Scalar.sNum bc.blockNumber),
         ("from", Scalar.sStr bc.fromAddr),
         ("to", Scalar.sStr bc.toAddr),
         ("gasUsed", Scalar.sNum bc.gasUsed),
         ("gasPrice", Scalar.sNum bc.gasPrice),
         ("transactionFee", Scalar.sNum (bc.gasUsed * bc.gasPrice)),
         ("networkName", Scalar.sStr bc.network),
         ("networkId", Scalar.sNum bc.chainId),
         ("status", Scalar.sStr "Confirmed")]
      let agriWithHash := objSet agriData "hash"
        (Scalar.sStr hashResult.hash)
      match DatabaseService.storeAgriData db agriWithHash farmerInfo
          blockchainData files insertOk dbNow with
      | (db2, Except.error e) => ((chain2, db2), Except.error e)
      | (db2, Except.ok dataId) =>
          ((chain2, db2), Except.ok
            { dataId := dataId,
              dataHash := hashResult.hash,
              originalData := hashResult.data,
              transactionHash := bc.transactionHash,
              blockNumber := bc.blockNumber,
              filesStored := files.length })

/-- Verdict object of the verify flow. -/
structure VerifyOutcome where
  dataId : Nat
  isValid : Bool
  storedHash : Scalar
  currentHash : String
  status : String
deriving DecidableEq, Repr

/-- verifyAgriDataIntegrity: load the stored record, rehash the
caller's data at verifyNow, compare via verifyHash, log the attempt
(best-effort), and return VERIFIED or TAMPERED. -/
def verifyAgriDataIntegrity (originalData : JsObj) (identifier : String)
    (idType : String) (verificationDetails : JsObj) (verifyNow : String)
    (db : Db) (logOk : Bool) : Db × Except String VerifyOutcome :=
  match DatabaseService.retrieveAgriData db identifier idType with
  | Except.error e => (db, Except.error e)
  | Except.ok storedData =>
    match createAgriDataHash originalData verifyNow with
    | Except.error e => (db, Except.error e)
    | Except.ok currentHashResult =>
      let isValid := verifyHash (JsIn.inObj currentHashResult.data)
        storedData.row.data_hash
      let details := objSet (objSet (objSet (objSet verificationDetails
        "transactionHash" storedData.row.transaction_hash)
        "currentHash" (Scalar.sStr currentHashResult.hash))
        "storedHash" storedData.row.data_hash)
        "comparisonMethod" (Scalar.sStr "SHA-256")
      let db2 := DatabaseService.logVerification db storedData.row.data_id
        isValid "hash_comparison" details logOk verifyNow
      (db2, Except.ok
        { dataId := storedData.row.data_id,
          isValid := isValid,
          storedHash := storedData.row.data_hash,
          currentHash := currentHashResult.hash,
          status := if isValid then "VERIFIED" else "TAMPERED" })

end AgriChainService

/-! ## Concrete fixtures used by counterexamples and bug witnesses -/

/-- A well-formed agricultural record. -/
def R1 : JsObj :=
  [("farmerId", Scalar.sStr "F1"),
   ("productType", Scalar.sStr "Rice"),
   ("harvestDate", Scalar.sStr "2024-01-15"),
   ("location", Scalar.sStr "Delta")]

/-- Wall-clock time of the store call. -/
def t1 : String := "2024-01-15T10:00:00.000Z"

/-- Wall-clock time of the later verify call. -/
def t2 : String := "2024-01-15T10:00:01.000Z"

/-- Transaction hash the network assigns in the fixture run. -/
def txh1 : String :=
  "0x1111111111111111111111111111111111111111111111111111111111111111"

/-- Ledger environment of the fixture run. -/
def env1 : LedgerEnv :=
  { now := t1, newTxHash := txh1, blockNumber := 100,
    blockHash := "0xb10c", gasUsed := 21000, gasPrice := 2,
    walletAddr := "0xWa11e7", network := "amoy", chainId := 80002 }

/-- Empty ledger. -/
def chain0 : Chain := { txs := [], receipts := [] }

/-- Empty relational store. -/
def db0 : Db :=
  { farmers := [], agri := [], bctx := [], ufiles := [], vlogs := [],
    syslogs := [], nextDataId := 1, nextFileId := 1, nextLogId := 1 }

/-- Hash field of a createAgriDataHash result, when it succeeded. -/
def hashValue (e : Except String HashResult) : Option String :=
  match e with
  | Except.ok r => some r.hash
  | Except.error _ => none

/-- Error message of a createAgriDataHash result, when it failed. -/
def errValue (e : Except String HashResult) : Option String :=
  match e with
  | Except.ok _ => none
  | Except.error m => some m

/-- Did the createAgriDataHash call succeed? -/
def isOkE (e : Except String HashResult) : Bool :=
  match e with
  | Except.ok _ => true
  | Except.error _ => false

/-- Status of verifying record r unchanged at time tv against the
store made of it at time ts, through the full store and verify
pipelines. -/
def storeThenVerifyStatus (r : JsObj) (ts tv : String) : Option String :=
  match AgriChainService.storeAgriData r [] emptyFarmerInfo ts env1
      chain0 db0 (fun _ => true) ts with
  | ((_, db1), Except.ok _) =>
    match AgriChainService.verifyAgriDataIntegrity r txh1 "hash" [] tv
        db1 true with
    | (_, Except.ok v) => some v.status
    | (_, Except.error _) => none
  | (_, Except.error _) => none

/-! ## Claims -/

/-- C1: storing a well-formed record and then verifying the unchanged
record against the stored identifier is claimed to return VERIFIED.
The code instead hashes a fresh new Date().toISOString() into the
payload on every createAgriDataHash call, so the verify-time digest
differs from the store-time digest whenever the two calls see
different clock readings, and the pipeline answers TAMPERED; only a
verify call in the very same millisecond answers VERIFIED. -/
theorem storeThenVerify_unchanged_returns_tampered :
    storeThenVerifyStatus R1 t1 t2 = some "TAMPERED" ∧
    storeThenVerifyStatus R1 t1 t1 = some "VERIFIED" := by
  constructor
  · decide
  · decide

/-- C2: the record digest operation is claimed deterministic with no
embedded current-time field.  createAgriDataHash R at two different
clock readings embeds each reading in the hashed payload and returns
two different digests for the same record. -/
theorem createAgriDataHash_not_deterministic :
    hashValue (createAgriDataHash R1 t1) ≠
      hashValue (createAgriDataHash R1 t2) ∧
    hashValue (createAgriDataHash R1 t1) ≠ none ∧
    hashValue (createAgriDataHash R1 t2) ≠ none := by
  refine ⟨by decide, by decide, by decide⟩

/-- C9 counterexample: a record whose four required fields are all
present, with location bound to the empty string, is rejected by
createAgriDataHash even though no required field is missing. -/
theorem createAgriDataHash_rejects_present_empty_field :
    (∀ f ∈ requiredFields,
      ([("farmerId", Scalar.sStr "F1"),
        ("productType", Scalar.sStr "Rice"),
        ("harvestDate", Scalar.sStr "2024-01-15"),
        ("location", Scalar.sStr "")] : JsObj).any
          (fun p => p.1 = f) = true) ∧
    errValue (createAgriDataHash
      [("farmerId", Scalar.sStr "F1"),
       ("productType", Scalar.sStr "Rice"),
       ("harvestDate", Scalar.sStr "2024-01-15"),
       ("location", Scalar.sStr "")] t1) =
      some "Missing required fields: location" := by
  refine ⟨by decide, by decide⟩

/-- C9 amended: createAgriDataHash rejects exactly when at least one
required field is missing or holds a falsy value (empty string, 0,
false, null); it succeeds on every record whose four required fields
are present and truthy, and this validation is its only failure
mode. -/
theorem createAgriDataHash_ok_iff_required_truthy
    (agriData : JsObj) (now : String) :
    isOkE (createAgriDataHash agriData now) = true ↔
      ∀ f ∈ requiredFields, truthy (objGet agriData f) = true := by
  unfold createAgriDataHash
  by_cases hm :
      requiredFields.filter (fun f => !truthy (objGet agriData f)) = []
  · rw [if_neg (by simp [hm])]
    simp only [isOkE, true_iff]
    intro f hf
    have := List.filter_eq_nil_iff.mp hm f hf
    simpa using this
  · rw [if_pos hm]
    simp only [isOkE]
    constructor
    · intro h
      exact absurd h (by simp)
    · intro hall
      exact absurd
        (List.filter_eq_nil_iff.mpr (fun f hf => by simp [hall f hf])) hm

/-- C9 amended witness: a fully-populated record is accepted, applying
the equivalence right-to-left at a concrete record. -/
theorem createAgriDataHash_ok_iff_required_truthy_witness :
    isOkE (createAgriDataHash R1 t1) = true :=
  (createAgriDataHash_ok_iff_required_truthy R1 t1).mpr (by decide)

/-- C10: verifyHash is total: a non-string expected hash yields false
(the startsWith call throws inside the guarded block), and the verdict
is insensitive to the expected hash carrying or omitting its 0x
prefix. -/
theorem verifyHash_total_prefix_insensitive :
    (∀ (data : JsIn) (h : Scalar), (∀ s, h ≠ Scalar.sStr s) →
      verifyHash data h = false) ∧
    (∀ (data : JsIn) (h : String), jsStartsWith h "0x" = false →
      verifyHash data (Scalar.sStr h) =
        verifyHash data (Scalar.sStr ("0x" ++ h))) := by
  constructor
  · intro data h hns
    cases h with
    | sStr s => exact absurd rfl (hns s)
    | sNum n => rfl
    | sBool b => rfl
    | sNull => rfl
    | sUndef => rfl
  · intro data h hnp
    have hpre : jsStartsWith ("0x" ++ h) "0x" = true := by
      simp [jsStartsWith, List.isPrefixOf]
    simp [verifyHash, hnp, hpre]

/-- C10 witness: the equivalence applied at a concrete record and a
concrete unprefixed hash string, and falsity at a null hash. -/
theorem verifyHash_total_prefix_insensitive_witness :
    verifyHash (JsIn.inScalar (Scalar.sStr "a")) Scalar.sNull = false ∧
    verifyHash (JsIn.inScalar (Scalar.sStr "a")) (Scalar.sStr "ff") =
      verifyHash (JsIn.inScalar (Scalar.sStr "a")) (Scalar.sStr "0xff") := by
  refine ⟨?_, ?_⟩
  · exact verifyHash_total_prefix_insensitive.1 _ Scalar.sNull
      (by intro s; simp)
  · exact verifyHash_total_prefix_insensitive.2 _ "ff" (by decide)

/-- After ensureFarmerExists, a row with the given id exists. -/
theorem ensureFarmerExists_mem (db : Db) (fid : Scalar) (fi : FarmerInfo) :
    (DatabaseService.ensureFarmerExists db fid fi).farmers.any
      (fun r => r.farmer_id = fid) = true := by
  unfold DatabaseService.ensureFarmerExists
  by_cases h : db.farmers.any (fun r => r.farmer_id = fid) = true
  · rw [if_pos h]; exact h
  · rw [if_neg h]
    simp [List.any_append]

/-- C8: producer provisioning is idempotent: the second call with the
same id is a no-op (so no second row is ever created), a call on a
database already holding the producer changes nothing (so an existing
record is never overwritten with defaults), and a unique producer row
stays unique. -/
theorem ensureFarmerExists_idempotent_no_overwrite
    (db : Db) (fid : Scalar) (i1 i2 : FarmerInfo) :
    (DatabaseService.ensureFarmerExists
        (DatabaseService.ensureFarmerExists db fid i1) fid i2 =
      DatabaseService.ensureFarmerExists db fid i1) ∧
    (db.farmers.any (fun r => r.farmer_id = fid) = true →
      DatabaseService.ensureFarmerExists db fid i1 = db) ∧
    (db.farmers.countP (fun r => r.farmer_id = fid) ≤ 1 →
      ((DatabaseService.ensureFarmerExists
        (DatabaseService.ensureFarmerExists db fid i1) fid i2).farmers.countP
          (fun r => r.farmer_id = fid)) ≤ 1) := by
  have hsecond :
      DatabaseService.ensureFarmerExists
        (DatabaseService.ensureFarmerExists db fid i1) fid i2 =
        DatabaseService.ensureFarmerExists db fid i1 := by
    conv_lhs => rw [DatabaseService.ensureFarmerExists]
    rw [if_pos (ensureFarmerExists_mem db fid i1)]
  refine ⟨hsecond, ?_, ?_⟩
  · intro hex
    unfold DatabaseService.ensureFarmerExists
    rw [if_pos hex]
  · intro hcount
    rw [hsecond]
    unfold DatabaseService.ensureFarmerExists
    by_cases h : db.farmers.any (fun r => r.farmer_id = fid) = true
    · rw [if_pos h]; exact hcount
    · rw [if_neg h]
      have hzero : db.farmers.countP (fun r => r.farmer_id = fid) = 0 := by
        rw [List.countP_eq_zero]
        intro r hr
        intro habs
        exact h (List.any_eq_true.mpr ⟨r, hr, habs⟩)
      simp [List.countP_append, hzero]

/-- A database holding exactly one producer row. -/
def farmerRow1 : FarmerRow :=
  { farmer_id := Scalar.sStr "F1", full_name := Scalar.sStr "Nguyen",
    email := Scalar.sNull, phone := Scalar.sNull, address := Scalar.sNull,
    province := Scalar.sNull, district := Scalar.sNull,
    ward := Scalar.sNull, certification_level := Scalar.sStr "Gold",
    wallet_address := Scalar.sNull }

def dbF : Db := { db0 with farmers := [farmerRow1] }

/-- C8 witness: the idempotence theorem applied at a concrete store
already holding producer F1. -/
theorem ensureFarmerExists_idempotent_no_overwrite_witness :
    DatabaseService.ensureFarmerExists dbF (Scalar.sStr "F1")
      emptyFarmerInfo = dbF ∧
    (DatabaseService.ensureFarmerExists
      (DatabaseService.ensureFarmerExists dbF (Scalar.sStr "F1")
        emptyFarmerInfo) (Scalar.sStr "F1") emptyFarmerInfo).farmers.countP
          (fun r => r.farmer_id = Scalar.sStr "F1") ≤ 1 := by
  have h := ensureFarmerExists_idempotent_no_overwrite dbF
    (Scalar.sStr "F1") emptyFarmerInfo emptyFarmerInfo
  exact ⟨h.2.1 (by decide), h.2.2 (by decide)⟩

/-- Did the verify flow produce a verdict? -/
def verifyOk (e : Except String AgriChainService.VerifyOutcome) : Bool :=
  match e with
  | Except.ok _ => true
  | Except.error _ => false

/-- Did retrieveAgriData find a record? -/
def retrievedOk (e : Except String DatabaseService.Retrieved) : Bool :=
  match e with
  | Except.ok _ => true
  | Except.error _ => false

/-- C7: whenever the verify flow reaches a verdict (record found,
caller data valid), it appends exactly one verification-log entry, the
old entries survive unchanged (append-only), a failed log write leaves
the store untouched, and the verdict returned to the caller is the
same whether the log write succeeds or fails. -/
theorem verifyAgriDataIntegrity_logs_exactly_once
    (od : JsObj) (idf ty : String) (vD : JsObj) (now : String) (db : Db)
    (hret : retrievedOk (DatabaseService.retrieveAgriData db idf ty) = true)
    (hchr : isOkE (createAgriDataHash od now) = true) :
    (AgriChainService.verifyAgriDataIntegrity od idf ty vD now db
        true).1.vlogs.length = db.vlogs.length + 1 ∧
    db.vlogs <+: (AgriChainService.verifyAgriDataIntegrity od idf ty vD now
        db true).1.vlogs ∧
    (AgriChainService.verifyAgriDataIntegrity od idf ty vD now db
        false).1 = db ∧
    (AgriChainService.verifyAgriDataIntegrity od idf ty vD now db true).2 =
      (AgriChainService.verifyAgriDataIntegrity od idf ty vD now db
        false).2 ∧
    verifyOk (AgriChainService.verifyAgriDataIntegrity od idf ty vD now db
        true).2 = true := by
  cases hR : DatabaseService.retrieveAgriData db idf ty with
  | error e => rw [hR] at hret; simp [retrievedOk] at hret
  | ok sd =>
    cases hC : createAgriDataHash od now with
    | error e => rw [hC] at hchr; simp [isOkE] at hchr
    | ok chr =>
      unfold AgriChainService.verifyAgriDataIntegrity
      rw [hR, hC]
      unfold DatabaseService.logVerification
      refine ⟨?_, ?_, rfl, rfl, rfl⟩
      · simp
      · simp [List.prefix_append]

/-- Record row used by the verify-flow witness. -/
def rowV : AgriRow :=
  { data_id := 7, farmer_id := Scalar.sStr "F1",
    product_type := Scalar.sStr "Rice", location := Scalar.sStr "Delta",
    harvest_date := Scalar.sStr "2024-01-15", quantity := Scalar.sNull,
    quality := Scalar.sStr "Standard", notes := Scalar.sNull,
    data_hash := Scalar.sStr "0xdead", transaction_hash := Scalar.sStr txh1,
    block_number := Scalar.sNum 100, has_files := false, file_count := 0 }

def dbV : Db := { db0 with agri := [rowV] }

/-- C7 witness: the logging theorem applied to a concrete store
holding one record, verified (with a mismatch) at a concrete time. -/
theorem verifyAgriDataIntegrity_logs_exactly_once_witness :
    (AgriChainService.verifyAgriDataIntegrity R1 txh1 "hash" [] t2 dbV
        true).1.vlogs.length = dbV.vlogs.length + 1 ∧
    (AgriChainService.verifyAgriDataIntegrity R1 txh1 "hash" [] t2 dbV
        false).1 = dbV := by
  have h := verifyAgriDataIntegrity_logs_exactly_once R1 txh1 "hash" [] t2
    dbV (by decide) (by decide)
  exact ⟨h.1, h.2.2.1⟩

/-- Did the persistence call succeed? -/
def storeOk (p : Db × Except String Nat) : Bool :=
  match p.2 with
  | Except.ok _ => true
  | Except.error _ => false

/-- ensureFarmerExists touches only the farmers table. -/
theorem ensureFarmerExists_other_tables
    (db : Db) (fid : Scalar) (fi : FarmerInfo) :
    (DatabaseService.ensureFarmerExists db fid fi).agri = db.agri ∧
    (DatabaseService.ensureFarmerExists db fid fi).bctx = db.bctx ∧
    (DatabaseService.ensureFarmerExists db fid fi).ufiles = db.ufiles ∧
    (DatabaseService.ensureFarmerExists db fid fi).vlogs = db.vlogs := by
  unfold DatabaseService.ensureFarmerExists
  split <;> simp

/-- storeBlockchainTransaction touches only blockchain_transactions:
it leaves the table unchanged on a duplicate transaction hash and
appends one row otherwise. -/
theorem storeBlockchainTransaction_effects
    (db : Db) (bd : JsObj) (now : String) :
    (DatabaseService.storeBlockchainTransaction db bd now).agri = db.agri ∧
    (DatabaseService.storeBlockchainTransaction db bd now).ufiles =
      db.ufiles ∧
    (DatabaseService.storeBlockchainTransaction db bd now).vlogs =
      db.vlogs ∧
    (DatabaseService.storeBlockchainTransaction db bd now).farmers =
      db.farmers ∧
    (db.bctx.any (fun r =>
        r.transaction_hash = objGet bd "transactionHash") = true →
      (DatabaseService.storeBlockchainTransaction db bd now).bctx =
        db.bctx) ∧
    (db.bctx.any (fun r =>
        r.transaction_hash = objGet bd "transactionHash") = false →
      (DatabaseService.storeBlockchainTransaction db bd now).bctx.length =
        db.bctx.length + 1) := by
  unfold DatabaseService.storeBlockchainTransaction
  by_cases h : db.bctx.any (fun r =>
      r.transaction_hash = objGet bd "transactionHash") = true
  · rw [if_pos h]
    refine ⟨rfl, rfl, rfl, rfl, fun _ => rfl, fun habs => ?_⟩
    rw [h] at habs; cases habs
  · rw [if_neg h]
    refine ⟨rfl, rfl, rfl, rfl, fun habs => absurd habs h, fun _ => ?_⟩
    simp

/-- Anchor-row insert on an already-present transaction hash leaves
the table unchanged (duplicate-key suppression). -/
theorem sbt_bctx_dup (dbx : Db) (bd : JsObj) (now : String)
    (h : dbx.bctx.any (fun r =>
      r.transaction_hash = objGet bd "transactionHash") = true) :
    (DatabaseService.storeBlockchainTransaction dbx bd now).bctx =
      dbx.bctx := by
  unfold DatabaseService.storeBlockchainTransaction
  rw [if_pos h]

/-- Anchor-row insert on a fresh transaction hash appends one row. -/
theorem sbt_bctx_new (dbx : Db) (bd : JsObj) (now : String)
    (h : dbx.bctx.any (fun r =>
      r.transaction_hash = objGet bd "transactionHash") = false) :
    (DatabaseService.storeBlockchainTransaction dbx bd now).bctx.length =
      dbx.bctx.length + 1 := by
  unfold DatabaseService.storeBlockchainTransaction
  rw [if_neg (by simp [h])]
  simp

/-- storeFileMetadata with every insert succeeding: returns ok, adds
one uploaded_files row per file, and touches nothing else. -/
theorem storeFileMetadata_all_ok (files : List JsFile) :
    ∀ (db : Db) (dId : Nat) (now : String) (i : Nat),
    (DatabaseService.storeFileMetadata db dId files (fun _ => true) now
        i).2 = Except.ok () ∧
    (DatabaseService.storeFileMetadata db dId files (fun _ => true) now
        i).1.agri = db.agri ∧
    (DatabaseService.storeFileMetadata db dId files (fun _ => true) now
        i).1.bctx = db.bctx ∧
    (DatabaseService.storeFileMetadata db dId files (fun _ => true) now
        i).1.vlogs = db.vlogs ∧
    (DatabaseService.storeFileMetadata db dId files (fun _ => true) now
        i).1.ufiles.length = db.ufiles.length + files.length := by
  induction files with
  | nil =>
    intro db dId now i
    simp [DatabaseService.storeFileMetadata]
  | cons f rest ih =>
    intro db dId now i
    have h := ih
      { db with
          ufiles := db.ufiles ++
            [{ file_id := db.nextFileId, data_id := dId,
               original_name := Scalar.sStr f.originalname,
               stored_filename := Scalar.sStr f.filename,
               file_path := Scalar.sStr f.path,
               file_size := Scalar.sNum f.size,
               mime_type := Scalar.sStr f.mimetype,
               file_hash := scalarOr f.hash (Scalar.sStr ""),
               upload_date := Scalar.sStr now,
               is_active := true }],
          nextFileId := db.nextFileId + 1 }
      dId now (i + 1)
    simp only [DatabaseService.storeFileMetadata, if_pos] at h ⊢
    refine ⟨h.1, h.2.1, h.2.2.1, h.2.2.2.1, ?_⟩
    rw [h.2.2.2.2]
    simp [Nat.add_assoc, Nat.add_comm 1 rest.length]

/-- storeFileMetadata with the first insert failing: the thrown error
propagates and the store is returned unchanged. -/
theorem storeFileMetadata_first_fails (db : Db) (dId : Nat)
    (f : JsFile) (rest : List JsFile) (insertOk : Nat → Bool)
    (now : String) (h0 : insertOk 0 = false) :
    DatabaseService.storeFileMetadata db dId (f :: rest) insertOk now =
      (db, Except.error "File metadata insert failed") := by
  unfold DatabaseService.storeFileMetadata
  rw [if_neg (by simp [h0])]

/-- C6 counterexample: with one attached file whose metadata insert
fails, DatabaseService.storeAgriData fails, yet the record row has
been inserted and survives with no attachment row: there is no
all-or-nothing boundary around record plus attachments. -/
theorem storeAgriData_record_left_behind_on_attachment_failure :
    storeOk (DatabaseService.storeAgriData db0 R1 emptyFarmerInfo
      [("transactionHash", Scalar.sStr txh1),
       ("blockNumber", Scalar.sNum 100)]
      [{ originalname := "a.pdf", filename := "a_1.pdf",
         path := "u/a_1.pdf", mimetype := "application/pdf", size := 3,
         content := [1, 2, 3], hash := Scalar.sUndef }]
      (fun _ => false) t1) = false ∧
    (DatabaseService.storeAgriData db0 R1 emptyFarmerInfo
      [("transactionHash", Scalar.sStr txh1),
       ("blockNumber", Scalar.sNum 100)]
      [{ originalname := "a.pdf", filename := "a_1.pdf",
         path := "u/a_1.pdf", mimetype := "application/pdf", size := 3,
         content := [1, 2, 3], hash := Scalar.sUndef }]
      (fun _ => false) t1).1.agri.length = 1 ∧
    (DatabaseService.storeAgriData db0 R1 emptyFarmerInfo
      [("transactionHash", Scalar.sStr txh1),
       ("blockNumber", Scalar.sNum 100)]
      [{ originalname := "a.pdf", filename := "a_1.pdf",
         path := "u/a_1.pdf", mimetype := "application/pdf", size := 3,
         content := [1, 2, 3], hash := Scalar.sUndef }]
      (fun _ => false) t1).1.ufiles.length = 0 := by
  refine ⟨by decide, by decide, by decide⟩

/-- C6 amended: DatabaseService.storeAgriData inserts the record row,
the anchor row (suppressing a duplicate transaction-hash conflict
without failing the call) and one attachment row per file, but the
inserts are sequential with no transaction spanning record and
attachments: when every insert succeeds the call returns the new
record id with one new record row and one attachment row per file,
and when an attachment insert fails the call fails while the record
row stays behind. -/
theorem storeAgriData_insert_effects (db : Db) (a : JsObj)
    (fi : FarmerInfo) (bd : JsObj) (files : List JsFile) (now : String) :
    (storeOk (DatabaseService.storeAgriData db a fi bd files
      (fun _ => true) now) = true ∧
     (DatabaseService.storeAgriData db a fi bd files
       (fun _ => true) now).1.agri.length = db.agri.length + 1 ∧
     (DatabaseService.storeAgriData db a fi bd files
       (fun _ => true) now).1.ufiles.length =
         db.ufiles.length + files.length) ∧
    (db.bctx.any (fun r =>
        r.transaction_hash = objGet bd "transactionHash") = true →
      (DatabaseService.storeAgriData db a fi bd files
        (fun _ => true) now).1.bctx = db.bctx) ∧
    (db.bctx.any (fun r =>
        r.transaction_hash = objGet bd "transactionHash") = false →
      (DatabaseService.storeAgriData db a fi bd files
        (fun _ => true) now).1.bctx.length = db.bctx.length + 1) ∧
    (∀ insertOk : Nat → Bool, ∀ f rest, files = f :: rest →
      insertOk 0 = false →
      storeOk (DatabaseService.storeAgriData db a fi bd files
        insertOk now) = false ∧
      (DatabaseService.storeAgriData db a fi bd files
        insertOk now).1.agri.length = db.agri.length + 1) := by
  have hens := ensureFarmerExists_other_tables db (objGet a "farmerId") fi
  obtain ⟨hag, hbc, huf, hvl⟩ := hens
  refine ⟨⟨?_, ?_, ?_⟩, ?_, ?_, ?_⟩
  · cases files with
    | nil =>
      simp [DatabaseService.storeAgriData, DatabaseService.spStoreAgriData,
        DatabaseService.storeFileMetadata, DatabaseService.logOperation,
        storeOk]
    | cons f rest =>
      have hsfm := storeFileMetadata_all_ok (f :: rest)
      simp only [DatabaseService.storeAgriData,
        DatabaseService.spStoreAgriData, List.length_cons,
        gt_iff_lt, Nat.zero_lt_succ, if_true]
      rw [(hsfm _ _ _ _).1]
      simp [storeOk]
  · cases files with
    | nil =>
      simp [DatabaseService.storeAgriData, DatabaseService.spStoreAgriData,
        DatabaseService.storeFileMetadata, DatabaseService.logOperation,
        storeOk, (storeBlockchainTransaction_effects _ bd now).1, hag]
    | cons f rest =>
      have hsfm := storeFileMetadata_all_ok (f :: rest)
      simp only [DatabaseService.storeAgriData,
        DatabaseService.spStoreAgriData, List.length_cons, gt_iff_lt,
        Nat.zero_lt_succ, if_true]
      rw [(hsfm _ _ _ _).1]
      simp [DatabaseService.logOperation, (hsfm _ _ _ _).2.1,
        (storeBlockchainTransaction_effects _ bd now).1, hag]
  · cases files with
    | nil =>
      simp [DatabaseService.storeAgriData, DatabaseService.spStoreAgriData,
        DatabaseService.storeFileMetadata, DatabaseService.logOperation,
        storeOk, (storeBlockchainTransaction_effects _ bd now).2.1, huf]
    | cons f rest =>
      have hsfm := storeFileMetadata_all_ok (f :: rest)
      simp only [DatabaseService.storeAgriData,
        DatabaseService.spStoreAgriData, List.length_cons, gt_iff_lt,
        Nat.zero_lt_succ, if_true]
      rw [(hsfm _ _ _ _).1]
      simp [DatabaseService.logOperation, (hsfm _ _ _ _).2.2.2.2,
        (storeBlockchainTransaction_effects _ bd now).2.1, huf]
  · intro hdup
    cases files with
    | nil =>
      simp only [DatabaseService.storeAgriData,
        DatabaseService.spStoreAgriData,
        DatabaseService.storeFileMetadata, DatabaseService.logOperation,
        List.length_nil, gt_iff_lt, lt_self_iff_false, if_false]
      refine Eq.trans (sbt_bctx_dup _ bd now ?_) ?_
      · simp [hbc, hdup]
      · simp [hbc]
    | cons f rest =>
      have hsfm := storeFileMetadata_all_ok (f :: rest)
      simp only [DatabaseService.storeAgriData,
        DatabaseService.spStoreAgriData, List.length_cons, gt_iff_lt,
        Nat.zero_lt_succ, if_true]
      rw [(hsfm _ _ _ _).1]
      simp only [DatabaseService.logOperation]
      rw [(hsfm _ _ _ _).2.2.1]
      refine Eq.trans (sbt_bctx_dup _ bd now ?_) ?_
      · simp [hbc, hdup]
      · simp [hbc]
  · intro hdup
    cases files with
    | nil =>
      simp only [DatabaseService.storeAgriData,
        DatabaseService.spStoreAgriData,
        DatabaseService.storeFileMetadata, DatabaseService.logOperation,
        List.length_nil, gt_iff_lt, lt_self_iff_false, if_false]
      refine Eq.trans (sbt_bctx_new _ bd now ?_) ?_
      · simp [hbc, hdup]
      · simp [hbc]
    | cons f rest =>
      have hsfm := storeFileMetadata_all_ok (f :: rest)
      simp only [DatabaseService.storeAgriData,
        DatabaseService.spStoreAgriData, List.length_cons, gt_iff_lt,
        Nat.zero_lt_succ, if_true]
      rw [(hsfm _ _ _ _).1]
      simp only [DatabaseService.logOperation]
      rw [(hsfm _ _ _ _).2.2.1]
      refine Eq.trans (sbt_bctx_new _ bd now ?_) ?_
      · simp [hbc, hdup]
      · simp [hbc]
  · intro insertOk f rest hfiles h0
    subst hfiles
    constructor
    · simp only [DatabaseService.storeAgriData,
        DatabaseService.spStoreAgriData, List.length_cons, gt_iff_lt,
        Nat.zero_lt_succ, if_true]
      rw [storeFileMetadata_first_fails _ _ _ _ _ _ h0]
      simp [storeOk]
    · simp only [DatabaseService.storeAgriData,
        DatabaseService.spStoreAgriData, List.length_cons, gt_iff_lt,
        Nat.zero_lt_succ, if_true]
      rw [storeFileMetadata_first_fails _ _ _ _ _ _ h0]
      simp [(storeBlockchainTransaction_effects _ bd now).1, hag]

/-- C6 amended witness: the effects theorem applied at a concrete
empty store, one file, and a failing attachment insert. -/
theorem storeAgriData_insert_effects_witness :
    storeOk (DatabaseService.storeAgriData db0 R1 emptyFarmerInfo
      [("transactionHash", Scalar.sStr txh1)]
      [{ originalname := "a.pdf", filename := "a_1.pdf",
         path := "u/a_1.pdf", mimetype := "application/pdf", size := 3,
         content := [1, 2, 3], hash := Scalar.sUndef }]
      (fun _ => false) t1) = false := by
  have h := (storeAgriData_insert_effects db0 R1 emptyFarmerInfo
    [("transactionHash", Scalar.sStr txh1)]
    [{ originalname := "a.pdf", filename := "a_1.pdf",
       path := "u/a_1.pdf", mimetype := "application/pdf", size := 3,
       content := [1, 2, 3], hash := Scalar.sUndef }] t1).2.2.2
  exact (h (fun _ => false) _ _ rfl rfl).1

/-- C5: the recover operation's error taxonomy: TX_NOT_FOUND when the
transaction is absent, TX_NOT_CONFIRMED when its receipt is absent,
and a successful response carrying the receipt metadata with null
storedHash, envelope and timestamp when both exist but the payload is
absent or cannot be decoded as UTF-8 JSON. -/
theorem retrieveHash_error_taxonomy (chain : Chain) (txh : String)
    (h1 : txh ≠ "") (h2 : isHexStringN txh 32 = true) :
    (chain.txs.find? (fun p => p.1 = txh) = none →
      retrieveHashFromBlockchain chain txh =
        Except.error (bcError "Transaction not found" "TX_NOT_FOUND"
          404)) ∧
    (∀ ktx, chain.txs.find? (fun p => p.1 = txh) = some ktx →
      chain.receipts.find? (fun p => p.1 = txh) = none →
      retrieveHashFromBlockchain chain txh =
        Except.error (bcError "Transaction not confirmed"
          "TX_NOT_CONFIRMED" 404)) ∧
    (∀ ktx krc, chain.txs.find? (fun p => p.1 = txh) = some ktx →
      chain.receipts.find? (fun p => p.1 = txh) = some krc →
      (if ktx.2.dataField ≠ "" ∧ ktx.2.dataField ≠ "0x" then
          (toUtf8String ktx.2.dataField).bind parseJsonFlat
        else none) = none →
      retrieveHashFromBlockchain chain txh = Except.ok
        { transactionHash := txh,
          blockNumber := krc.2.blockNumber,
          blockHash := krc.2.blockHash,
          gasUsed := krc.2.gasUsed,
          status := if krc.2.status = 1 then "success" else "failed",
          fromAddr := ktx.2.fromAddr,
          toAddr := ktx.2.toAddr,
          timestamp := none,
          storedHash := none,
          envelope := none,
          confirmed := krc.2.status = 1 }) := by
  have hval : ¬ ¬ (txh ≠ "" ∧ isHexStringN txh 32 = true) := by
    intro hn
    exact hn ⟨h1, h2⟩
  refine ⟨?_, ?_, ?_⟩
  · intro hfind
    unfold retrieveHashFromBlockchain
    rw [if_neg (by simp [h1, h2]), hfind]
  · intro ktx hfind hrc
    unfold retrieveHashFromBlockchain
    rw [if_neg (by simp [h1, h2]), hfind, hrc]
  · intro ktx krc hfind hrc hdec
    unfold retrieveHashFromBlockchain
    rw [if_neg (by simp [h1, h2]), hfind, hrc]
    simp only [hdec]
    simp [Option.bind]

/-- Transaction hash used by the C5 witness chains. -/
def txh2 : String :=
  "0x2222222222222222222222222222222222222222222222222222222222222222"

/-- Transaction with the empty hex payload "0x". -/
def txC5 : ChainTx :=
  { fromAddr := "0xa", toAddr := "0xa", value := 0, dataField := "0x" }

/-- Its confirmed receipt. -/
def rcC5 : ChainReceipt :=
  { blockNumber := 5, blockHash := "0xb", gasUsed := 21000,
    gasPrice := 1, status := 1, fromAddr := "0xa", toAddr := "0xa" }

/-- Chain holding one confirmed transaction whose payload is the empty
hex string "0x". -/
def chainC5 : Chain :=
  { txs := [(txh2, txC5)], receipts := [(txh2, rcC5)] }

/-- Chain holding the same transaction with no receipt. -/
def chainC5noRc : Chain := { txs := chainC5.txs, receipts := [] }

/-- C5 witness: the taxonomy applied to concrete chains: absent
transaction, unreceipted transaction, and confirmed transaction with
an undecodable (empty) payload. -/
theorem retrieveHash_error_taxonomy_witness :
    retrieveHashFromBlockchain chain0 txh2 =
      Except.error (bcError "Transaction not found" "TX_NOT_FOUND"
        404) ∧
    retrieveHashFromBlockchain chainC5noRc txh2 =
      Except.error (bcError "Transaction not confirmed"
        "TX_NOT_CONFIRMED" 404) ∧
    retrieveHashFromBlockchain chainC5 txh2 = Except.ok
      { transactionHash := txh2,
        blockNumber := 5,
        blockHash := "0xb",
        gasUsed := 21000,
        status := "success",
        fromAddr := "0xa",
        toAddr := "0xa",
        timestamp := none,
        storedHash := none,
        envelope := none,
        confirmed := true } := by
  refine ⟨?_, ?_, ?_⟩
  · exact (retrieveHash_error_taxonomy chain0 txh2 (by decide)
      (by decide)).1 rfl
  · exact (retrieveHash_error_taxonomy chainC5noRc txh2 (by decide)
      (by decide)).2.1 (txh2, txC5) (by decide) rfl
  · exact (retrieveHash_error_taxonomy chainC5 txh2 (by decide)
      (by decide)).2.2 (txh2, txC5) (txh2, rcC5) (by decide) (by decide)
      (by decide)

/-! ## Output-length facts about the hash engine, used by the
combined-hash order-sensitivity argument -/

/-- Equal character data makes equal strings. -/
theorem strEq_of_data (s t : String) (h : s.data = t.data) : s = t := by
  cases s; cases t; simp at h; rw [h]

theorem strAppend_empty (s : String) : s ++ "" = s :=
  strEq_of_data _ _ (by simp)

/-- One compression round preserves the state width. -/
theorem sha256Round_length (k wt : Nat) (st : List Nat) :
    (sha256Round k wt st).length = st.length := by
  unfold sha256Round
  split <;> simp

/-- The 64-round fold preserves the state width. -/
theorem foldl_rounds_length (f g : Nat → Nat) (l : List Nat)
    (st : List Nat) :
    (l.foldl (fun s t => sha256Round (f t) (g t) s) st).length =
      st.length := by
  induction l generalizing st with
  | nil => rfl
  | cons x xs ih => rw [List.foldl_cons, ih, sha256Round_length]

/-- Block compression preserves the state width. -/
theorem sha256Block_length (st blk : List Nat) :
    (sha256Block st blk).length = st.length := by
  unfold sha256Block
  simp [foldl_rounds_length]

/-- The block fold keeps the eight-word state. -/
theorem foldl_blocks_length (blkf : Nat → List Nat) (l : List Nat)
    (st : List Nat) :
    (l.foldl (fun s i => sha256Block s (blkf i)) st).length =
      st.length := by
  induction l generalizing st with
  | nil => rfl
  | cons x xs ih => rw [List.foldl_cons, ih, sha256Block_length]

theorem beBytes_length (n v : Nat) : (beBytes n v).length = n := by
  simp [beBytes]

/-- SHA-256 always emits 32 bytes. -/
theorem sha256_length (msg : List Nat) : (sha256 msg).length = 32 := by
  unfold sha256
  have hgen : ∀ (ws : List Nat),
      (ws.foldr (fun w acc => beBytes 4 w ++ acc) []).length =
        4 * ws.length := by
    intro ws
    induction ws with
    | nil => rfl
    | cons w rest ih =>
      simp [ih, beBytes_length, Nat.mul_succ, Nat.add_comm]
  rw [hgen, foldl_blocks_length]
  rfl

/-- The hex digest of any byte list has twice as many characters. -/
theorem hexOfBytes_data_length (bs : List Nat) :
    (hexOfBytes bs).data.length = 2 * bs.length := by
  unfold hexOfBytes
  induction bs with
  | nil => rfl
  | cons b rest ih =>
    simp at ih ⊢
    omega

/-- Hex SHA-256 digests are 64 characters long. -/
theorem sha256Hex_data_length (msg : List Nat) :
    (sha256Hex msg).data.length = 64 := by
  unfold sha256Hex
  rw [hexOfBytes_data_length, sha256_length]

/-! ## C3: combined hash -/

/-- Concatenation of the per-file hex digests in submission order, as
the spec words it. -/
def perFileConcat : List JsFile → String
  | [] => ""
  | f :: rest => fileHashHex f ++ perFileConcat rest

/-- The source's left fold building combinedContent equals the record
serialization followed by the per-file digests in submission order. -/
theorem combined_foldl_eq (files : List JsFile) :
    ∀ init : String,
      files.foldl (fun acc f => acc ++ fileHashHex f) init =
        init ++ perFileConcat files := by
  induction files with
  | nil =>
    intro init
    simp [perFileConcat, strAppend_empty]
  | cons f rest ih =>
    intro init
    simp only [List.foldl_cons, perFileConcat]
    rw [ih, String.append_assoc]

/-- Combined digest equation: SHA-256 over the serialized record
followed by the per-file digests. -/
theorem generateCombinedHash_eq (data : JsObj) (files : List JsFile)
    (now : String) :
    (generateCombinedHash data files now).combinedHash =
      "0x" ++ sha256Hex (utf8Encode
        (stringifyObj data ++ perFileConcat files)) := by
  simp only [generateCombinedHash]
  rw [combined_foldl_eq]

/-- Appending to a fixed front string is injective. -/
theorem strAppend_left_cancel (p a b : String) :
    p ++ a = p ++ b ↔ a = b := by
  constructor
  · intro h
    have hd := congrArg String.data h
    simp at hd
    exact strEq_of_data _ _ hd
  · intro h
    rw [h]

/-- Record fixture of the combined-hash counterexample. -/
def dC3 : JsObj := [("a", Scalar.sStr "b")]

/-- File fixtures of the combined-hash counterexample. -/
def fC3 : JsFile :=
  { originalname := "x", filename := "x1", path := "p",
    mimetype := "text/plain", size := 1, content := [0],
    hash := Scalar.sUndef }

def fD3 : JsFile :=
  { originalname := "y", filename := "y1", path := "q",
    mimetype := "text/plain", size := 1, content := [1],
    hash := Scalar.sUndef }

/-- C3 counterexample: the combined digest is not the hash of the
record digest concatenated with the per-file digests (neither with
the bare nor with the 0x-prefixed record digest): the code hashes the
record's JSON serialization, not its digest, in front of the per-file
digests. -/
theorem generateCombinedHash_not_from_record_digest :
    (generateCombinedHash dC3 [fC3] t1).combinedHash ≠
      "0x" ++ sha256Hex (utf8Encode
        ((generateCombinedHash dC3 [fC3] t1).dataHash ++
          fileHashHex fC3)) ∧
    (generateCombinedHash dC3 [fC3] t1).combinedHash ≠
      "0x" ++ sha256Hex (utf8Encode
        ("0x" ++ (generateCombinedHash dC3 [fC3] t1).dataHash ++
          fileHashHex fC3)) := by
  refine ⟨by decide, by decide⟩

/-- C3 amended: one SHA-256 digest per file is computed from the raw
file bytes in submission order; the combined digest hashes the
concatenation of the record's JSON serialization (not the record
digest) with all per-file digests in submission order; swapping two
files whose digests differ changes the hashed input, and changes the
combined digest exactly when SHA-256 separates the two inputs (which
it does at the exhibited witness). -/
theorem generateCombinedHash_serialization_and_order
    (data : JsObj) (files : List JsFile) (now : String) :
    ((generateCombinedHash data files now).files.map FileInfo.hash =
      files.map (fun f => "0x" ++ sha256Hex f.content)) ∧
    ((generateCombinedHash data files now).combinedHash =
      "0x" ++ sha256Hex (utf8Encode
        (stringifyObj data ++ perFileConcat files))) ∧
    (∀ f1 f2 : JsFile, fileHashHex f1 ≠ fileHashHex f2 →
      stringifyObj data ++ perFileConcat [f1, f2] ≠
        stringifyObj data ++ perFileConcat [f2, f1]) ∧
    (∀ f1 f2 : JsFile,
      ((generateCombinedHash data [f1, f2] now).combinedHash =
          (generateCombinedHash data [f2, f1] now).combinedHash ↔
        sha256Hex (utf8Encode
            (stringifyObj data ++ perFileConcat [f1, f2])) =
          sha256Hex (utf8Encode
            (stringifyObj data ++ perFileConcat [f2, f1])))) := by
  refine ⟨?_, generateCombinedHash_eq data files now, ?_, ?_⟩
  · simp [generateCombinedHash, fileHashHex]
  · intro f1 f2 hne
    intro heq
    have hdata := congrArg String.data heq
    simp only [perFileConcat, strAppend_empty] at hdata
    simp only [String.data_append, List.append_assoc] at hdata
    have h12 := List.append_cancel_left hdata
    have hlen : (fileHashHex f1).data.length =
        (fileHashHex f2).data.length := by
      unfold fileHashHex
      rw [sha256Hex_data_length, sha256Hex_data_length]
    exact hne (strEq_of_data _ _ (List.append_inj h12 hlen).1)
  · intro f1 f2
    rw [generateCombinedHash_eq, generateCombinedHash_eq]
    exact strAppend_left_cancel _ _ _

/-- C3 amended witness: two concrete one-byte files with distinct
digests: the hashed inputs differ and so do the combined digests. -/
theorem generateCombinedHash_serialization_and_order_witness :
    (stringifyObj dC3 ++ perFileConcat [fC3, fD3] ≠
      stringifyObj dC3 ++ perFileConcat [fD3, fC3]) ∧
    (generateCombinedHash dC3 [fC3, fD3] t1).combinedHash ≠
      (generateCombinedHash dC3 [fD3, fC3] t1).combinedHash := by
  have h := generateCombinedHash_serialization_and_order dC3 [fC3, fD3] t1
  refine ⟨h.2.2.1 fC3 fD3 (by decide), ?_⟩
  intro heq
  exact (by decide : sha256Hex (utf8Encode
      (stringifyObj dC3 ++ perFileConcat [fC3, fD3])) ≠
    sha256Hex (utf8Encode
      (stringifyObj dC3 ++ perFileConcat [fD3, fC3])))
    ((h.2.2.2 fC3 fD3).mp heq)

/-! ## JSON round-trip: the decoder inverts stringifyObj on escape-free
payloads -/

/-- Characters that JSON.stringify emits verbatim and that fit in one
UTF-8 byte: printable ASCII except the quote and the backslash. -/
def plainChar (c : Char) : Bool :=
  32 ≤ c.toNat ∧ c.toNat < 127 ∧ c ≠ '"' ∧ c ≠ '\\'

/-- String of plain characters. -/
def plainStr (s : String) : Bool := s.data.all plainChar

/-- Scalar whose serialization round-trips: plain strings, integers,
booleans and null (undefined is dropped by stringify). -/
def plainScalar : Scalar → Bool
  | Scalar.sStr s => plainStr s
  | Scalar.sNum _ => true
  | Scalar.sBool _ => true
  | Scalar.sNull => true
  | Scalar.sUndef => false

/-- Object with plain keys and plain scalar values. -/
def plainObj (o : JsObj) : Bool :=
  o.all (fun p => plainStr p.1 && plainScalar p.2)

/-- Decimal digit string of n, most significant first. -/
def digitsOf (n : Nat) : List Char :=
  if h : n < 10 then [Nat.digitChar n]
  else digitsOf (n / 10) ++ [Nat.digitChar (n % 10)]
  termination_by n
  decreasing_by
    exact Nat.div_lt_self (by omega) (by omega)

theorem digitChar_toNat (d : Nat) (h : d < 10) :
    (Nat.digitChar d).toNat = 48 + d := by
  interval_cases d <;> decide

theorem digitsOf_ne_nil (n : Nat) : digitsOf n ≠ [] := by
  unfold digitsOf
  split
  · simp
  · simp

theorem digitsOf_all_digits (n : Nat) :
    ∀ c ∈ digitsOf n, 48 ≤ c.toNat ∧ c.toNat ≤ 57 := by
  induction n using Nat.strong_induction_on with
  | _ n ih =>
    unfold digitsOf
    split
    · intro c hc
      simp at hc
      subst hc
      rw [digitChar_toNat _ (by omega)]
      omega
    · intro c hc
      simp at hc
      rcases hc with h1 | h2
      · exact ih (n / 10) (Nat.div_lt_self (by omega) (by omega)) c h1
      · subst h2
        rw [digitChar_toNat _ (Nat.mod_lt _ (by omega))]
        have := Nat.mod_lt n (show 0 < 10 by omega)
        omega

/-- Nat.toDigitsCore pushes onto the accumulator. -/
theorem toDigitsCore_append :
    ∀ (fuel n : Nat) (ds : List Char),
      Nat.toDigitsCore 10 fuel n ds = Nat.toDigitsCore 10 fuel n [] ++ ds := by
  intro fuel
  induction fuel with
  | zero => intro n ds; simp [Nat.toDigitsCore]
  | succ f ih =>
    intro n ds
    simp only [Nat.toDigitsCore]
    by_cases h : n / 10 = 0
    · simp [h]
    · simp only [if_neg h]
      rw [ih (n / 10) [Nat.digitChar (n % 10)],
        ih (n / 10) (Nat.digitChar (n % 10) :: ds)]
      simp

/-- The fuelled core computes the digit string. -/
theorem toDigitsCore_eq_digitsOf :
    ∀ (fuel n : Nat), n < fuel →
      Nat.toDigitsCore 10 fuel n [] = digitsOf n := by
  intro fuel
  induction fuel with
  | zero => intro n h; omega
  | succ f ih =>
    intro n h
    simp only [Nat.toDigitsCore]
    by_cases h0 : n / 10 = 0
    · have hn10 : n < 10 := by omega
      rw [if_pos h0]
      unfold digitsOf
      rw [dif_pos hn10, Nat.mod_eq_of_lt hn10]
    · rw [if_neg h0]
      have hge : 10 ≤ n := by
        rcases Nat.lt_or_ge n 10 with h' | h'
        · exact absurd (Nat.div_eq_of_lt h') h0
        · exact h'
      have hdlt : n / 10 < n := Nat.div_lt_self (by omega) (by omega)
      have hlt : n / 10 < f := by omega
      rw [toDigitsCore_append, ih (n / 10) hlt]
      conv_rhs => rw [digitsOf]
      rw [dif_neg (by omega)]

/-- Nat.repr prints the digit string. -/
theorem natRepr_data (n : Nat) : (Nat.repr n).data = digitsOf n := by
  show (List.asString (Nat.toDigitsCore 10 (n + 1) n [])).data = _
  rw [toDigitsCore_eq_digitsOf (n + 1) n (Nat.lt_succ_self n)]
  rfl

/-- Digit-fold evaluation, as parseNatTok performs it. -/
def evalDigits (a : Nat) (cs : List Char) : Nat :=
  cs.foldl (fun acc c => 10 * acc + (c.toNat - 48)) a

theorem evalDigits_digitsOf (n : Nat) :
    ∀ a, evalDigits a (digitsOf n) =
      a * 10 ^ (digitsOf n).length + n := by
  induction n using Nat.strong_induction_on with
  | _ n ih =>
    intro a
    unfold digitsOf
    split
    · rename_i h
      simp [evalDigits, digitChar_toNat n h]
      omega
    · rename_i h
      have hrec := ih (n / 10) (Nat.div_lt_self (by omega) (by omega))
      simp only [evalDigits, List.foldl_append, List.foldl_cons,
        List.foldl_nil]
      rw [show ∀ l a, List.foldl (fun acc c => 10 * acc + (c.toNat - 48))
          a l = evalDigits a l from fun _ _ => rfl]
      rw [hrec a]
      rw [digitChar_toNat _ (Nat.mod_lt _ (by omega))]
      simp [List.length_append, Nat.pow_succ]
      have := Nat.div_add_mod n 10
      ring_nf
      omega

theorem takeWhile_append_all {p : Char → Bool} :
    ∀ (l1 l2 : List Char), (∀ c ∈ l1, p c = true) →
      (l1 ++ l2).takeWhile p = l1 ++ l2.takeWhile p := by
  intro l1 l2 h
  induction l1 with
  | nil => simp
  | cons c r ih =>
    simp only [List.cons_append, List.takeWhile_cons,
      h c (by simp)]
    rw [ih (fun c hc => h c (by simp [hc]))]
    simp

theorem dropWhile_append_all {p : Char → Bool} :
    ∀ (l1 l2 : List Char), (∀ c ∈ l1, p c = true) →
      (l1 ++ l2).dropWhile p = l2.dropWhile p := by
  intro l1 l2 h
  induction l1 with
  | nil => simp
  | cons c r ih =>
    simp only [List.cons_append, List.dropWhile_cons,
      h c (by simp)]
    exact ih (fun c hc => h c (by simp [hc]))

/-- A list head that is not a comma, closing brace or any other digit
stops the digit scan. -/
theorem parseNatTok_digitsOf (n : Nat) (rest : List Char)
    (hrest : ∀ c, rest.head? = some c →
      (48 ≤ c.toNat ∧ c.toNat ≤ 57) → False) :
    parseNatTok (digitsOf n ++ rest) = some (n, rest) := by
  have hall : ∀ c ∈ digitsOf n,
      (fun c : Char => decide (48 ≤ c.toNat ∧ c.toNat ≤ 57)) c = true := by
    intro c hc
    simp [digitsOf_all_digits n c hc]
  have hstop : rest.takeWhile
      (fun c : Char => decide (48 ≤ c.toNat ∧ c.toNat ≤ 57)) = [] := by
    cases rest with
    | nil => rfl
    | cons c r =>
      rw [List.takeWhile_cons]
      rw [decide_eq_false (fun hp => hrest c rfl hp)]
      simp
  have hstop2 : rest.dropWhile
      (fun c : Char => decide (48 ≤ c.toNat ∧ c.toNat ≤ 57)) = rest := by
    cases rest with
    | nil => rfl
    | cons c r =>
      rw [List.dropWhile_cons]
      rw [decide_eq_false (fun hp => hrest c rfl hp)]
      simp
  unfold parseNatTok
  rw [takeWhile_append_all _ _ hall, hstop, dropWhile_append_all _ _ hall,
    hstop2]
  rw [if_neg (by simp [digitsOf_ne_nil n])]
  have : (digitsOf n ++ ([] : List Char)).foldl
      (fun acc c => 10 * acc + (c.toNat - 48)) 0 = n := by
    rw [List.append_nil]
    have := evalDigits_digitsOf n 0
    simpa [evalDigits] using this
  rw [this]

theorem jsonEscChar_plain (c : Char) (h : plainChar c = true) :
    jsonEscChar c = [c] := by
  simp [plainChar] at h
  obtain ⟨h1, h2, h3, h4⟩ := h
  unfold jsonEscChar
  rw [if_neg h3, if_neg h4,
    if_neg (by intro he; subst he; exact absurd h1 (by decide)),
    if_neg (by intro he; subst he; exact absurd h1 (by decide)),
    if_neg (by intro he; subst he; exact absurd h1 (by decide)),
    if_neg (by intro he; subst he; exact absurd h1 (by decide)),
    if_neg (by intro he; subst he; exact absurd h1 (by decide)),
    if_neg (by omega)]

theorem jsonQuote_data_plain (s : String) (h : plainStr s = true) :
    (jsonQuote s).data = '"' :: (s.data ++ ['"']) := by
  unfold jsonQuote
  show '"' :: _ = _
  congr 1
  have : ∀ l : List Char, (∀ c ∈ l, plainChar c = true) →
      l.foldr (fun c acc => jsonEscChar c ++ acc) ['"'] = l ++ ['"'] := by
    intro l hl
    induction l with
    | nil => rfl
    | cons c r ih =>
      simp only [List.foldr_cons, jsonEscChar_plain c (hl c (by simp))]
      rw [ih (fun c hc => hl c (by simp [hc]))]
      rfl
  apply this
  intro c hc
  simp [plainStr, List.all_eq_true] at h
  exact h c hc

theorem parseStrChars_plain :
    ∀ (cs : List Char) (fuel : Nat) (rest : List Char),
      (∀ c ∈ cs, plainChar c = true) → cs.length < fuel →
      parseStrChars fuel (cs ++ '"' :: rest) = some (cs, rest) := by
  intro cs
  induction cs with
  | nil =>
    intro fuel rest _ hf
    cases fuel with
    | zero => omega
    | succ f =>
      show parseStrChars (f + 1) ('"' :: rest) = _
      unfold parseStrChars
      rw [if_pos rfl]
  | cons c cs' ih =>
    intro fuel rest h hf
    cases fuel with
    | zero => simp at hf
    | succ f =>
      have hc := h c (by simp)
      simp [plainChar] at hc
      show parseStrChars (f + 1) (c :: (cs' ++ '"' :: rest)) = _
      unfold parseStrChars
      rw [if_neg hc.2.2.1, if_neg hc.2.2.2, if_neg (by omega),
        ih f rest (fun c hc => h c (by simp [hc])) (by simpa using hf)]
      rfl

/-- Is the character a decimal digit (48..57)? -/
theorem not_quote_of_digit (c : Char) (hc : 48 ≤ c.toNat ∧ c.toNat ≤ 57) :
    c ≠ '"' := by
  intro he
  subst he
  exact absurd hc (by decide)

theorem parseScalarTok_round (v : Scalar) (rest : List Char)
    (hv : plainScalar v = true)
    (hrest : rest.head? = some ',' ∨ rest.head? = some rbrace) :
    parseScalarTok ((jsonScalar v).data ++ rest) = some (v, rest) := by
  have hrestNoDigit : ∀ c, rest.head? = some c →
      (48 ≤ c.toNat ∧ c.toNat ≤ 57) → False := by
    intro c hhd hdg
    rcases hrest with h' | h' <;> rw [h'] at hhd <;>
      injection hhd with hh <;> subst hh
    · exact absurd hdg (by decide)
    · exact absurd hdg (by simp [rbrace] at hdg ⊢)
  cases v with
  | sStr s =>
    simp only [jsonScalar]
    rw [jsonQuote_data_plain s hv]
    show parseScalarTok ('"' :: (s.data ++ ['"'] ++ rest)) = _
    simp only [parseScalarTok]
    rw [if_pos trivial]
    have : s.data ++ ['"'] ++ rest = s.data ++ '"' :: rest := by simp
    rw [this]
    rw [parseStrChars_plain s.data _ rest
      (by intro c hc; simp [plainScalar, plainStr, List.all_eq_true] at hv;
          exact hv c hc)
      (by simp)]
    show some (Scalar.sStr (String.mk s.data), rest) = _
    cases s
    rfl
  | sNum n =>
    cases n with
    | ofNat m =>
      have hdata : (jsonScalar (Scalar.sNum (Int.ofNat m))).data =
          digitsOf m := by
        show (Int.repr (Int.ofNat m)).data = _
        show (Nat.repr m).data = _
        exact natRepr_data m
      rw [hdata]
      obtain ⟨c, cs', hcons⟩ :=
        List.exists_cons_of_ne_nil (digitsOf_ne_nil m)
      rw [hcons]
      have hcd : 48 ≤ c.toNat ∧ c.toNat ≤ 57 :=
        digitsOf_all_digits m c (by rw [hcons]; simp)
      show parseScalarTok (c :: (cs' ++ rest)) = _
      simp only [parseScalarTok]
      rw [if_neg (not_quote_of_digit c hcd),
        if_neg (by intro he; subst he; exact absurd hcd (by decide)),
        if_neg (by
          intro he
          have : c = 't' := by
            cases cs' <;> simp at he <;> exact he.1
          subst this
          exact absurd hcd (by decide)),
        if_neg (by
          intro he
          have : c = 'f' := by
            cases cs' <;> simp at he <;> exact he.1
          subst this
          exact absurd hcd (by decide)),
        if_neg (by
          intro he
          have : c = 'n' := by
            cases cs' <;> simp at he <;> exact he.1
          subst this
          exact absurd hcd (by decide))]
      have : c :: cs' ++ rest = digitsOf m ++ rest := by rw [hcons]
      rw [show c :: (cs' ++ rest) = digitsOf m ++ rest from by
        rw [hcons]; rfl]
      rw [parseNatTok_digitsOf m rest hrestNoDigit]
      rfl
    | negSucc m =>
      have hdata : (jsonScalar (Scalar.sNum (Int.negSucc m))).data =
          '-' :: digitsOf (m + 1) := by
        show (Int.repr (Int.negSucc m)).data = _
        show (("-" : String) ++ Nat.repr (m + 1)).data = _
        rw [String.data_append, natRepr_data]
        rfl
      rw [hdata]
      show parseScalarTok ('-' :: (digitsOf (m + 1) ++ rest)) = _
      simp only [parseScalarTok]
      rw [if_pos trivial,
        parseNatTok_digitsOf (m + 1) rest hrestNoDigit]
      show some (Scalar.sNum (-((m : Int) + 1)), rest) = _
      rw [show -((m : Int) + 1) = Int.negSucc m from by
        rw [Int.negSucc_eq]]
  | sBool b =>
    cases b with
    | true =>
      show parseScalarTok ('t' :: 'r' :: 'u' :: 'e' :: rest) = _
      simp [parseScalarTok]
    | false =>
      show parseScalarTok ('f' :: 'a' :: 'l' :: 's' :: 'e' :: rest) = _
      simp [parseScalarTok]
  | sNull =>
    show parseScalarTok ('n' :: 'u' :: 'l' :: 'l' :: rest) = _
    simp [parseScalarTok]
  | sUndef => simp [plainScalar] at hv

/-- Serialized form of one object field. -/
theorem fieldStr_data (k : String) (v : Scalar) (hk : plainStr k = true) :
    (jsonQuote k ++ ":" ++ jsonScalar v).data =
      '"' :: (k.data ++ '"' :: ':' :: (jsonScalar v).data) := by
  rw [String.data_append, String.data_append, jsonQuote_data_plain k hk]
  simp

/-- Rendered field list of a JSON object, in insertion order. -/
def fieldsText : JsObj → String
  | [] => ""
  | [p] => jsonQuote p.1 ++ ":" ++ jsonScalar p.2
  | p :: rest =>
      jsonQuote p.1 ++ ":" ++ jsonScalar p.2 ++ ("," ++ fieldsText rest)

theorem joinComma_map_eq_fieldsText :
    ∀ o : JsObj,
      joinComma (o.map (fun p => jsonQuote p.1 ++ ":" ++ jsonScalar p.2)) =
        fieldsText o := by
  intro o
  induction o with
  | nil => rfl
  | cons p o' ih =>
    cases o' with
    | nil => rfl
    | cons q o'' =>
      simp only [List.map_cons, joinComma, fieldsText] at ih ⊢
      rw [ih, String.append_assoc]

theorem parseFieldSeq_round :
    ∀ (o : JsObj) (fuel : Nat), o ≠ [] → plainObj o = true →
      o.length ≤ fuel →
      parseFieldSeq fuel ((fieldsText o).data ++ [rbrace]) =
        some (o, [rbrace]) := by
  intro o
  induction o with
  | nil => intro fuel h; exact absurd rfl h
  | cons p o' ih =>
    intro fuel _ hplain hfuel
    obtain ⟨k, v⟩ := p
    have hsplit : ((plainStr k && plainScalar v) && plainObj o') = true :=
      hplain
    simp only [Bool.and_eq_true] at hsplit
    obtain ⟨⟨hk, hv⟩, hplain2⟩ := hsplit
    have hkchars : ∀ c ∈ k.data, plainChar c = true :=
      List.all_eq_true.mp hk
    cases fuel with
    | zero => simp at hfuel
    | succ f =>
      cases o' with
      | nil =>
        simp only [fieldsText]
        rw [fieldStr_data k v hk]
        simp only [List.cons_append]
        simp only [parseFieldSeq]
        rw [show (k.data ++ '"' :: ':' :: (jsonScalar v).data) ++ [rbrace]
            = k.data ++ '"' :: (':' :: ((jsonScalar v).data ++ [rbrace]))
          from by simp]
        rw [parseStrChars_plain k.data _ _ hkchars (by simp)]
        rw [Option.some_bind]
        simp only [List.head?_cons, List.drop_one, List.tail_cons]
        rw [if_pos trivial]
        rw [parseScalarTok_round v [rbrace] hv (Or.inr rfl)]
        rw [Option.some_bind]
        rw [if_neg (by
          intro h
          simp only [List.head?_cons] at h
          injection h with h2
          exact absurd h2 (by decide))]
      | cons q o'' =>
        simp only [fieldsText]
        rw [show ((jsonQuote k ++ ":" ++ jsonScalar v ++
              ("," ++ fieldsText (q :: o''))).data)
            = (jsonQuote k ++ ":" ++ jsonScalar v).data ++
              ',' :: (fieldsText (q :: o'')).data
          from by simp [String.data_append]]
        rw [fieldStr_data k v hk]
        simp only [List.cons_append, List.append_assoc]
        simp only [parseFieldSeq]
        rw [show k.data ++ '"' :: ':' :: ((jsonScalar v).data ++ ',' ::
              ((fieldsText (q :: o'')).data ++ [rbrace]))
            = k.data ++ '"' :: (':' :: ((jsonScalar v).data ++ ',' ::
              ((fieldsText (q :: o'')).data ++ [rbrace])))
          from by simp]
        rw [parseStrChars_plain k.data _ _ hkchars (by simp)]
        rw [Option.some_bind]
        simp only [List.head?_cons, List.drop_one, List.tail_cons]
        rw [if_pos trivial]
        rw [parseScalarTok_round v
          (',' :: ((fieldsText (q :: o'')).data ++ [rbrace])) hv
          (Or.inl rfl)]
        rw [Option.some_bind]
        simp only [List.head?_cons, List.drop_one, List.tail_cons]
        rw [if_pos trivial]
        rw [ih f (by simp) hplain2
          (by simpa using Nat.le_of_succ_le_succ hfuel)]
        cases k
        rfl

/-- Each field contributes at least one character. -/
theorem fieldsText_length :
    ∀ (o : JsObj), o ≠ [] → o.length ≤ (fieldsText o).data.length := by
  intro o
  induction o with
  | nil => intro h; exact absurd rfl h
  | cons p o' ih =>
    intro _
    cases o' with
    | nil =>
      show 1 ≤ ((jsonQuote p.1 ++ ":" ++ jsonScalar p.2).data).length
      rw [String.data_append, String.data_append]
      simp [jsonQuote]
    | cons q o'' =>
      show (q :: o'').length + 1 ≤ _
      have h2 := ih (by simp)
      show _ ≤ ((jsonQuote p.1 ++ ":" ++ jsonScalar p.2 ++
        ("," ++ fieldsText (q :: o''))).data).length
      rw [String.data_append, String.data_append]
      simp only [List.length_append]
      have : (("," : String) ++ fieldsText (q :: o'')).data.length =
          1 + (fieldsText (q :: o'')).data.length := by
        rw [String.data_append]
        simp
        omega
      omega

/-- Rendered nonempty field lists are nonempty. -/
theorem fieldsText_ne_nil (p : String × Scalar) (o' : JsObj) :
    (fieldsText (p :: o')).data ≠ [] := by
  have h := fieldsText_length (p :: o') (by simp)
  intro he
  rw [he] at h
  simp at h

/-- The decoder inverts stringifyObj on plain objects. -/
theorem parseJsonFlat_stringify (o : JsObj) (h : plainObj o = true) :
    parseJsonFlat (stringifyObj o) = some o := by
  have hfilter : o.filter (fun p => p.2 ≠ Scalar.sUndef) = o := by
    rw [List.filter_eq_self]
    intro p hp
    have hall := List.all_eq_true.mp h p hp
    simp only [Bool.and_eq_true] at hall
    have h2 := hall.2
    simp only [decide_eq_true_eq]
    intro he
    rw [he] at h2
    simp [plainScalar] at h2
  unfold stringifyObj
  rw [hfilter, joinComma_map_eq_fieldsText]
  cases o with
  | nil =>
    have hdata : (String.mk [lbrace] ++ fieldsText [] ++
        String.mk [rbrace]).data = [lbrace, rbrace] := by
      rw [String.data_append, String.data_append]
      rfl
    simp [parseJsonFlat, hdata]
  | cons p o' =>
    have hne := fieldsText_ne_nil p o'
    have hdata : (String.mk [lbrace] ++ fieldsText (p :: o') ++
        String.mk [rbrace]).data =
        lbrace :: ((fieldsText (p :: o')).data ++ [rbrace]) := by
      rw [String.data_append, String.data_append]
      rfl
    simp only [parseJsonFlat, hdata]
    rw [if_pos trivial]
    rw [if_neg (by
      intro he
      have hl := congrArg List.length he
      simp at hl
      exact hne (List.length_eq_zero.mp hl))]
    rw [parseFieldSeq_round (p :: o') _ (by simp) h
      (by
        have h1 := fieldsText_length (p :: o') (by simp)
        simp only [List.length_append]
        omega)]
    rw [Option.some_bind]
    rw [if_pos rfl]

/-! ## Hex / UTF-8 transport round-trip -/

theorem hexDigitVal_hexDigit (d : Nat) (h : d < 16) :
    hexDigitVal (hexDigit d) = some d := by
  interval_cases d <;> decide

theorem bytesOfHex_hexOfBytes :
    ∀ (bs : List Nat), (∀ b ∈ bs, b < 256) →
      bytesOfHex ((hexOfBytes bs).data) = some bs := by
  intro bs
  induction bs with
  | nil => intro _; rfl
  | cons b rest ih =>
    intro h
    have hb : b < 256 := h b (by simp)
    show bytesOfHex (hexDigit (b / 16 % 16) :: hexDigit (b % 16) ::
      (hexOfBytes rest).data) = _
    simp only [bytesOfHex]
    rw [hexDigitVal_hexDigit _ (Nat.mod_lt _ (by omega)),
      hexDigitVal_hexDigit _ (Nat.mod_lt _ (by omega))]
    rw [ih (fun b hb2 => h b (by simp [hb2]))]
    have hdiv : b / 16 % 16 = b / 16 :=
      Nat.mod_eq_of_lt (by omega)
    rw [hdiv]
    change Option.map (fun bs => (16 * (b / 16) + b % 16) :: bs)
      (some rest) = some (b :: rest)
    rw [Nat.div_add_mod]
    rfl

theorem utf8Char_ascii (c : Char) (h : c.toNat < 128) :
    utf8Char c = [c.toNat] := by
  unfold utf8Char
  rw [if_pos h]

theorem utf8_ascii_roundtrip :
    ∀ (cs : List Char), (∀ c ∈ cs, c.toNat < 128) →
      ∀ fuel, cs.length ≤ fuel →
      utf8DecL fuel (cs.foldr (fun c acc => utf8Char c ++ acc) []) =
        some cs := by
  intro cs
  induction cs with
  | nil =>
    intro _ fuel _
    cases fuel <;> rfl
  | cons c cs' ih =>
    intro h fuel hf
    have hc : c.toNat < 128 := h c (by simp)
    cases fuel with
    | zero => simp at hf
    | succ f =>
      have hfold : (c :: cs').foldr (fun c acc => utf8Char c ++ acc) [] =
          c.toNat :: cs'.foldr (fun c acc => utf8Char c ++ acc) [] := by
        rw [List.foldr_cons, utf8Char_ascii c hc]
        rfl
      rw [hfold]
      simp only [utf8DecL]
      rw [if_pos hc, ih (fun c hc2 => h c (by simp [hc2])) f
        (by simpa using hf)]
      simp [Char.ofNat_toNat]

theorem utf8Encode_ascii_bytes (s : String)
    (h : ∀ c ∈ s.data, c.toNat < 128) :
    ∀ b ∈ utf8Encode s, b < 128 := by
  have hgen : ∀ (l : List Char), (∀ c ∈ l, c.toNat < 128) →
      ∀ b ∈ l.foldr (fun c acc => utf8Char c ++ acc) [], b < 128 := by
    intro l
    induction l with
    | nil => intro _; simp
    | cons c cs ih =>
      intro hl b hb
      simp only [List.foldr_cons] at hb
      rw [utf8Char_ascii c (hl c (by simp))] at hb
      simp at hb
      rcases hb with hb | hb
      · rw [hb]; exact hl c (by simp)
      · exact ih (fun c hc => hl c (by simp [hc])) b hb
  exact hgen s.data h

theorem utf8Char_length_pos (c : Char) : 1 ≤ (utf8Char c).length := by
  simp only [utf8Char]
  split
  · simp
  · split
    · simp
    · split <;> simp

theorem utf8Encode_length_ge (s : String) :
    s.data.length ≤ (utf8Encode s).length := by
  have hgen : ∀ (l : List Char),
      l.length ≤ (l.foldr (fun c acc => utf8Char c ++ acc) []).length := by
    intro l
    induction l with
    | nil => simp
    | cons c cs ih =>
      simp only [List.foldr_cons, List.length_append, List.length_cons]
      have := utf8Char_length_pos c
      omega
  exact hgen s.data

/-- utf8DecL inverts utf8Encode on ASCII strings. -/
theorem utf8DecL_encode (s : String) (h : ∀ c ∈ s.data, c.toNat < 128)
    (fuel : Nat) (hf : s.data.length ≤ fuel) :
    utf8DecL fuel (utf8Encode s) = some s.data :=
  utf8_ascii_roundtrip s.data h fuel hf

theorem jsStartsWith_append_self (x : String) :
    jsStartsWith ("0x" ++ x) "0x" = true := by
  simp [jsStartsWith, List.isPrefixOf]

theorem toUtf8String_hexlify (s : String)
    (h : ∀ c ∈ s.data, c.toNat < 128) :
    toUtf8String (hexlify (utf8Encode s)) = some s := by
  unfold toUtf8String hexlify hexToBytes
  rw [if_pos (jsStartsWith_append_self _)]
  have hdrop : (("0x" : String) ++ hexOfBytes (utf8Encode s)).data.drop 2 =
      (hexOfBytes (utf8Encode s)).data := by
    rw [String.data_append]
    rfl
  rw [hdrop]
  rw [bytesOfHex_hexOfBytes (utf8Encode s)
    (fun b hb => by have := utf8Encode_ascii_bytes s h b hb; omega)]
  rw [Option.some_bind]
  rw [utf8DecL_encode s h (utf8Encode s).length (utf8Encode_length_ge s)]
  rfl

/-! ## Envelope lookup and plainness -/

theorem objGet_objSet_ne (o : JsObj) (k k2 : String) (v : Scalar)
    (h : k2 ≠ k) : objGet (objSet o k2 v) k = objGet o k := by
  unfold objSet
  split
  next hany =>
    clear hany
    unfold objGet
    congr 1
    induction o with
    | nil => rfl
    | cons p o' ih =>
      simp only [List.map_cons]
      by_cases hp : p.1 = k
      · have hne2 : p.1 ≠ k2 := fun he => h (he.symm.trans hp)
        rw [if_neg hne2]
        rw [List.find?_cons_of_pos _ (by simp [hp]),
          List.find?_cons_of_pos _ (by simp [hp])]
      · by_cases hk2 : p.1 = k2
        · rw [if_pos hk2]
          rw [List.find?_cons_of_neg _ (by simp [h]),
            List.find?_cons_of_neg _ (by simp [hp])]
          exact ih
        · rw [if_neg hk2]
          rw [List.find?_cons_of_neg _ (by simp [hp]),
            List.find?_cons_of_neg _ (by simp [hp])]
          exact ih
  next hany =>
    clear hany
    unfold objGet
    congr 1
    induction o with
    | nil =>
      simp only [List.nil_append]
      rw [List.find?_cons_of_neg _ (by simp [h]), List.find?_nil]
    | cons p o' ih =>
      simp only [List.cons_append]
      by_cases hp : p.1 = k
      · rw [List.find?_cons_of_pos _ (by simp [hp]),
          List.find?_cons_of_pos _ (by simp [hp])]
      · rw [List.find?_cons_of_neg _ (by simp [hp]),
          List.find?_cons_of_neg _ (by simp [hp])]
        exact ih

theorem objGet_foldl_objSet_ne (k : String) :
    ∀ (m : JsObj), (∀ p ∈ m, p.1 ≠ k) → ∀ (o : JsObj),
      objGet (m.foldl (fun o p => objSet o p.1 p.2) o) k = objGet o k := by
  intro m
  induction m with
  | nil => intro _ o; rfl
  | cons p m' ih =>
    intro hm o
    rw [List.foldl_cons]
    rw [ih (fun q hq => hm q (by simp [hq])) (objSet o p.1 p.2)]
    exact objGet_objSet_ne o k p.1 p.2 (hm p (by simp))

theorem plainObj_objSet (o : JsObj) (k : String) (v : Scalar)
    (ho : plainObj o = true) (hk : plainStr k = true)
    (hv : plainScalar v = true) : plainObj (objSet o k v) = true := by
  unfold objSet
  split
  · rw [plainObj, List.all_eq_true]
    intro p hp
    rw [List.mem_map] at hp
    obtain ⟨q, hq, hqe⟩ := hp
    by_cases hqk : q.1 = k
    · rw [if_pos hqk] at hqe
      rw [← hqe]
      simp [hk, hv]
    · rw [if_neg hqk] at hqe
      rw [← hqe]
      exact List.all_eq_true.mp ho q hq
  · rw [plainObj, List.all_eq_true]
    intro p hp
    rw [List.mem_append] at hp
    rcases hp with hp | hp
    · exact List.all_eq_true.mp ho p hp
    · simp at hp
      rw [hp]
      simp [hk, hv]

theorem plainObj_foldl_objSet :
    ∀ (m : JsObj), plainObj m = true → ∀ (o : JsObj),
      plainObj o = true →
      plainObj (m.foldl (fun o p => objSet o p.1 p.2) o) = true := by
  intro m
  induction m with
  | nil => intro _ o ho; exact ho
  | cons p m' ih =>
    intro hm o ho
    have hp := List.all_eq_true.mp hm p (by simp)
    simp only [Bool.and_eq_true] at hp
    rw [List.foldl_cons]
    refine ih ?_ _ (plainObj_objSet o p.1 p.2 ho hp.1 hp.2)
    rw [plainObj, List.all_eq_true]
    intro q hq
    exact List.all_eq_true.mp hm q (by simp [hq])

/-! ## ASCII bound on serialized payloads -/

theorem plainChar_ascii (c : Char) (h : plainChar c = true) :
    c.toNat < 128 := by
  simp [plainChar] at h
  omega

theorem jsonQuote_ascii (s : String) (hs : plainStr s = true) :
    ∀ c ∈ (jsonQuote s).data, c.toNat < 128 := by
  rw [jsonQuote_data_plain s hs]
  intro c hc
  simp at hc
  rcases hc with hc | hc | hc
  · rw [hc]; decide
  · exact plainChar_ascii c (List.all_eq_true.mp hs c hc)
  · rw [hc]; decide

theorem digitsOf_ascii (n : Nat) : ∀ c ∈ digitsOf n, c.toNat < 128 := by
  intro c hc
  have := digitsOf_all_digits n c hc
  omega

theorem jsonScalar_ascii (v : Scalar) (hv : plainScalar v = true) :
    ∀ c ∈ (jsonScalar v).data, c.toNat < 128 := by
  cases v with
  | sStr s => exact jsonQuote_ascii s hv
  | sNum n =>
    cases n with
    | ofNat m =>
      intro c hc
      have : (jsonScalar (Scalar.sNum (Int.ofNat m))).data = digitsOf m :=
        natRepr_data m
      rw [this] at hc
      exact digitsOf_ascii m c hc
    | negSucc m =>
      intro c hc
      have hd : (jsonScalar (Scalar.sNum (Int.negSucc m))).data =
          '-' :: digitsOf (m + 1) := by
        show (("-" : String) ++ Nat.repr (m + 1)).data = _
        rw [String.data_append, natRepr_data]
        rfl
      rw [hd] at hc
      simp at hc
      rcases hc with hc | hc
      · rw [hc]; decide
      · exact digitsOf_ascii (m + 1) c hc
  | sBool b => cases b <;> decide
  | sNull => decide
  | sUndef => simp [plainScalar] at hv

theorem fieldsText_ascii :
    ∀ (o : JsObj), plainObj o = true →
      ∀ c ∈ (fieldsText o).data, c.toNat < 128 := by
  intro o
  induction o with
  | nil => intro _ c hc; simp [fieldsText] at hc
  | cons p o' ih =>
    intro h c hc
    have hp := List.all_eq_true.mp h p (by simp)
    simp only [Bool.and_eq_true] at hp
    have ho' : plainObj o' = true := by
      rw [plainObj, List.all_eq_true]
      intro q hq
      exact List.all_eq_true.mp h q (by simp [hq])
    cases o' with
    | nil =>
      have hd : (fieldsText [p]).data =
          (jsonQuote p.1).data ++ ':' :: (jsonScalar p.2).data := by
        show (jsonQuote p.1 ++ ":" ++ jsonScalar p.2).data = _
        rw [String.data_append, String.data_append]
        simp
      rw [hd] at hc
      simp at hc
      rcases hc with hc | hc | hc
      · exact jsonQuote_ascii p.1 hp.1 c hc
      · rw [hc]; decide
      · exact jsonScalar_ascii p.2 hp.2 c hc
    | cons q o'' =>
      have hd : (fieldsText (p :: q :: o'')).data =
          (jsonQuote p.1).data ++ ':' :: ((jsonScalar p.2).data ++
            ',' :: (fieldsText (q :: o'')).data) := by
        show (jsonQuote p.1 ++ ":" ++ jsonScalar p.2 ++
          ("," ++ fieldsText (q :: o''))).data = _
        rw [String.data_append, String.data_append, String.data_append]
        simp
      rw [hd] at hc
      simp at hc
      rcases hc with hc | hc | hc | hc | hc
      · exact jsonQuote_ascii p.1 hp.1 c hc
      · rw [hc]; decide
      · exact jsonScalar_ascii p.2 hp.2 c hc
      · rw [hc]; decide
      · exact ih ho' c hc

theorem stringifyObj_ascii (o : JsObj) (h : plainObj o = true) :
    ∀ c ∈ (stringifyObj o).data, c.toNat < 128 := by
  have hfilter : o.filter (fun p => p.2 ≠ Scalar.sUndef) = o := by
    rw [List.filter_eq_self]
    intro p hp
    have hall := List.all_eq_true.mp h p hp
    simp only [Bool.and_eq_true] at hall
    have h2 := hall.2
    simp only [decide_eq_true_eq]
    intro he
    rw [he] at h2
    simp [plainScalar] at h2
  unfold stringifyObj
  rw [hfilter, joinComma_map_eq_fieldsText]
  intro c hc
  rw [String.data_append, String.data_append] at hc
  simp at hc
  rcases hc with hc | hc | hc
  · rw [hc]; decide
  · exact fieldsText_ascii o h c hc
  · rw [hc]; decide

/-! ## C4: anchor/recover round-trip -/

/-- Hex digit characters are plain JSON characters. -/
theorem plainChar_of_isHexDigit (c : Char) (h : isHexDigit c = true) :
    plainChar c = true := by
  unfold isHexDigit hexDigitVal at h
  have hrange : (48 ≤ c.toNat ∧ c.toNat ≤ 57) ∨
      (97 ≤ c.toNat ∧ c.toNat ≤ 102) ∨ (65 ≤ c.toNat ∧ c.toNat ≤ 70) := by
    split at h
    next h1 => exact Or.inl h1
    next h1 =>
      split at h
      next h2 => exact Or.inr (Or.inl h2)
      next h2 =>
        split at h
        next h3 => exact Or.inr (Or.inr h3)
        next h3 => simp at h
  simp only [plainChar, decide_eq_true_eq]
  refine ⟨by omega, by omega, fun he => ?_, fun he => ?_⟩
  · rw [he] at hrange; revert hrange; decide
  · rw [he] at hrange; revert hrange; decide

/-- A 0x-prefixed string of hex digits is plain. -/
theorem plainStr_hexPayload (s : String)
    (h : s.data.all isHexDigit = true) :
    plainStr ("0x" ++ s) = true := by
  rw [plainStr, String.data_append, List.all_append, Bool.and_eq_true]
  refine ⟨by decide, ?_⟩
  rw [List.all_eq_true] at h ⊢
  exact fun c hc => plainChar_of_isHexDigit c (h c hc)

/-- Re-attaching 0x after slice(2) restores a 0x-prefixed string. -/
theorem prefix_restore (s : String) (hp : jsStartsWith s "0x" = true) :
    "0x" ++ strDrop s 2 = s := by
  obtain ⟨t, ht⟩ := List.isPrefixOf_iff_prefix.mp hp
  apply strEq_of_data
  show ("0x" : String).data ++ s.data.drop 2 = s.data
  rw [← ht]
  congr 1

/-- The UTF-8 encoding of a string with characters is nonempty. -/
theorem utf8Encode_ne_nil (s : String) (h : s.data ≠ []) :
    utf8Encode s ≠ [] := by
  intro he
  have hge := utf8Encode_length_ge s
  rw [he] at hge
  simp only [List.length_nil, Nat.le_zero] at hge
  exact h (List.length_eq_zero.mp hge)

/-- stringifyObj always emits at least the braces. -/
theorem stringifyObj_data_ne_nil (o : JsObj) :
    (stringifyObj o).data ≠ [] := by
  intro he
  unfold stringifyObj at he
  rw [String.data_append, String.data_append] at he
  simp at he

/-- A hexlified nonempty byte list is neither "" nor "0x". -/
theorem hexlify_ne_trivial (bs : List Nat) (h : bs ≠ []) :
    hexlify bs ≠ "" ∧ hexlify bs ≠ "0x" := by
  have hlen : (hexlify bs).data.length = 2 + 2 * bs.length := by
    rw [hexlify, String.data_append, List.length_append,
      hexOfBytes_data_length]
    rfl
  have hpos : 1 ≤ bs.length := by
    cases bs with
    | nil => exact absurd rfl h
    | cons b r => simp
  constructor
  · intro he
    rw [he] at hlen
    have h0 : ("" : String).data.length = 0 := rfl
    rw [h0] at hlen
    omega
  · intro he
    rw [he] at hlen
    have h0 : ("0x" : String).data.length = 2 := rfl
    rw [h0] at hlen
    omega

/-- The JSON envelope storeHashOnBlockchain serializes: timestamp and
0x-normalized hash, then the metadata spread over them. -/
def anchorTxData (d : String) (metadata : JsObj) (env : LedgerEnv) :
    JsObj :=
  metadata.foldl (fun o p => objSet o p.1 p.2)
    [("timestamp", Scalar.sStr env.now),
     ("hash", Scalar.sStr
       ("0x" ++ (if jsStartsWith d "0x" = true then strDrop d 2 else d)))]

/-- The self-transaction storeHashOnBlockchain submits. -/
def anchorTxOf (d : String) (metadata : JsObj) (env : LedgerEnv) :
    ChainTx :=
  { fromAddr := env.walletAddr, toAddr := env.walletAddr, value := 0,
    dataField := hexlify (utf8Encode (stringifyObj
      (anchorTxData d metadata env))) }

/-- Its confirmed receipt. -/
def anchorRcOf (env : LedgerEnv) : ChainReceipt :=
  { blockNumber := env.blockNumber, blockHash := env.blockHash,
    gasUsed := env.gasUsed, gasPrice := env.gasPrice, status := 1,
    fromAddr := env.walletAddr, toAddr := env.walletAddr }

/-- On a valid digest, storeHashOnBlockchain succeeds and appends the
serialized envelope transaction with its receipt. -/
theorem storeHashOnBlockchain_ok (d : String) (metadata : JsObj)
    (env : LedgerEnv) (chain : Chain) (hne : d ≠ "")
    (hok : (if jsStartsWith d "0x" = true then strDrop d 2 else d).length
        = 64 ∧
      ((if jsStartsWith d "0x" = true then strDrop d 2 else d).data.all
        isHexDigit) = true) :
    storeHashOnBlockchain (Scalar.sStr d) metadata env chain =
      Except.ok
        ({ txs := (env.newTxHash, anchorTxOf d metadata env) :: chain.txs,
           receipts :=
             (env.newTxHash, anchorRcOf env) :: chain.receipts },
         { transactionHash := env.newTxHash,
           blockNumber := env.blockNumber,
           gasUsed := env.gasUsed,
           storedHash := d,
           txData := anchorTxData d metadata env,
           network := env.network,
           chainId := env.chainId,
           timestamp := env.now,
           fromAddr := env.walletAddr,
           toAddr := env.walletAddr,
           gasPrice := env.gasPrice }) := by
  simp only [storeHashOnBlockchain]
  rw [if_neg hne, if_neg (not_not_intro hok)]
  rfl

/-- retrieveHashFromBlockchain on a found and confirmed transaction
whose payload decodes to the flat object o. -/
theorem retrieveHash_ok_decoded (chain : Chain) (txh k1 k2 : String)
    (tx : ChainTx) (rc : ChainReceipt) (o : JsObj)
    (h1 : txh ≠ "") (h2 : isHexStringN txh 32 = true)
    (hfind : chain.txs.find? (fun p => p.1 = txh) = some (k1, tx))
    (hrc : chain.receipts.find? (fun p => p.1 = txh) = some (k2, rc))
    (hc1 : tx.dataField ≠ "") (hc2 : tx.dataField ≠ "0x")
    (hdec : (toUtf8String tx.dataField).bind parseJsonFlat = some o) :
    retrieveHashFromBlockchain chain txh = Except.ok
      { transactionHash := txh,
        blockNumber := rc.blockNumber,
        blockHash := rc.blockHash,
        gasUsed := rc.gasUsed,
        status := if rc.status = 1 then "success" else "failed",
        fromAddr := tx.fromAddr,
        toAddr := tx.toAddr,
        timestamp := if truthy (objGet o "timestamp") then
          some (objGet o "timestamp") else none,
        storedHash := some (objGet o "hash"),
        envelope := some o,
        confirmed := rc.status = 1 } := by
  unfold retrieveHashFromBlockchain
  rw [if_neg (by simp [h1, h2]), hfind, hrc]
  simp [hc1, hc2, hdec]

/-- C4: for a valid digest anchored with metadata that does not itself
carry a "hash" property, recovery returns the 0x-normalized digest in
the envelope hash field; it returns the digest itself exactly when the
digest already carries the 0x prefix. -/
theorem anchorRecover_roundtrip (d : String) (metadata : JsObj)
    (env : LedgerEnv) (chain : Chain)
    (hne : d ≠ "")
    (hlen : (if jsStartsWith d "0x" = true then strDrop d 2 else d).length
      = 64)
    (hhex : ((if jsStartsWith d "0x" = true then strDrop d 2
      else d).data.all isHexDigit) = true)
    (hmk : ∀ p ∈ metadata, p.1 ≠ "hash")
    (hmp : plainObj metadata = true)
    (hnow : plainStr env.now = true)
    (htx0 : env.newTxHash ≠ "")
    (htx : isHexStringN env.newTxHash 32 = true) :
    ∃ chain2 res,
      storeHashOnBlockchain (Scalar.sStr d) metadata env chain =
        Except.ok (chain2, res) ∧
      ∃ out,
        retrieveHashFromBlockchain chain2 env.newTxHash =
          Except.ok out ∧
        out.storedHash = some (Scalar.sStr
          ("0x" ++ (if jsStartsWith d "0x" = true then strDrop d 2
            else d))) ∧
        (jsStartsWith d "0x" = true →
          out.storedHash = some (Scalar.sStr d)) := by
  have hch := storeHashOnBlockchain_ok d metadata env chain hne
    ⟨hlen, hhex⟩
  have hplainTx : plainObj (anchorTxData d metadata env) = true := by
    refine plainObj_foldl_objSet metadata hmp _ ?_
    simp only [plainObj, List.all_cons, List.all_nil, Bool.and_true,
      Bool.and_eq_true, plainScalar]
    exact ⟨⟨by decide, hnow⟩, by decide, plainStr_hexPayload _ hhex⟩
  have hascii := stringifyObj_ascii _ hplainTx
  have hnil : utf8Encode (stringifyObj (anchorTxData d metadata env))
      ≠ [] :=
    utf8Encode_ne_nil _ (stringifyObj_data_ne_nil _)
  have hnt := hexlify_ne_trivial _ hnil
  have hdecode :
      (toUtf8String (anchorTxOf d metadata env).dataField).bind
        parseJsonFlat = some (anchorTxData d metadata env) := by
    show (toUtf8String (hexlify (utf8Encode (stringifyObj
      (anchorTxData d metadata env))))).bind parseJsonFlat = _
    rw [toUtf8String_hexlify _ hascii, Option.some_bind,
      parseJsonFlat_stringify _ hplainTx]
  have hret := retrieveHash_ok_decoded
    { txs := (env.newTxHash, anchorTxOf d metadata env) :: chain.txs,
      receipts := (env.newTxHash, anchorRcOf env) :: chain.receipts }
    env.newTxHash env.newTxHash env.newTxHash
    (anchorTxOf d metadata env) (anchorRcOf env)
    (anchorTxData d metadata env)
    htx0 htx
    (List.find?_cons_of_pos _ (by simp))
    (List.find?_cons_of_pos _ (by simp))
    hnt.1 hnt.2 hdecode
  refine ⟨_, _, hch, _, hret, ?_, ?_⟩
  · show some (objGet (anchorTxData d metadata env) "hash") = _
    rw [anchorTxData, objGet_foldl_objSet_ne "hash" metadata hmk]
    rfl
  · intro hp
    show some (objGet (anchorTxData d metadata env) "hash") =
      some (Scalar.sStr d)
    rw [anchorTxData, objGet_foldl_objSet_ne "hash" metadata hmk]
    show some (Scalar.sStr
      ("0x" ++ (if jsStartsWith d "0x" = true then strDrop d 2
        else d))) = _
    rw [if_pos hp, prefix_restore d hp]

/-- Valid 0x-prefixed digest of the round-trip fixtures. -/
def dC4 : String :=
  "0xaaaaaaaaaaaaaaaaaaaaaaaaaaaaaaaaaaaaaaaaaaaaaaaaaaaaaaaaaaaaaaaa"

/-- Hash-free metadata of the round-trip witness. -/
def mC4 : JsObj :=
  [("farmerId", Scalar.sStr "FARM001"),
   ("dataType", Scalar.sStr "agricultural_data")]

/-- Metadata carrying its own hash property. -/
def mC4bad : JsObj := [("hash", Scalar.sStr "0xdeadbeef")]

/-- Metadata holding a "hash" property silently overrides the anchored
digest in the serialized envelope: recovery then returns the metadata
value, not the digest that was anchored. -/
theorem anchorRecover_metadata_overrides_hash :
    ∃ chain2 res,
      storeHashOnBlockchain (Scalar.sStr dC4) mC4bad env1 chain0 =
        Except.ok (chain2, res) ∧
      ∃ out,
        retrieveHashFromBlockchain chain2 env1.newTxHash =
          Except.ok out ∧
        out.storedHash = some (Scalar.sStr "0xdeadbeef") ∧
        out.storedHash ≠ some (Scalar.sStr dC4) := by
  refine ⟨_, _, rfl, _, rfl, by decide, by decide⟩

/-- The round-trip at a concrete digest, metadata and environment. -/
theorem anchorRecover_roundtrip_witness :
    dC4 ≠ "" ∧
    (∃ chain2 res,
      storeHashOnBlockchain (Scalar.sStr dC4) mC4 env1 chain0 =
        Except.ok (chain2, res) ∧
      ∃ out,
        retrieveHashFromBlockchain chain2 env1.newTxHash =
          Except.ok out ∧
        out.storedHash = some (Scalar.sStr
          ("0x" ++ (if jsStartsWith dC4 "0x" = true then strDrop dC4 2
            else dC4))) ∧
        (jsStartsWith dC4 "0x" = true →
          out.storedHash = some (Scalar.sStr dC4))) :=
  ⟨by decide, anchorRecover_roundtrip dC4 mC4 env1 chain0 (by decide)
    (by decide) (by decide) (by decide) (by decide) (by decide)
    (by decide) (by decide)⟩

end AgriChain
